import Mathlib

/-!
Verification of the image-math utility library (`src/image_utils.py`).

The library's observable behaviour depends on exact IEEE-754 binary64
("double") arithmetic: CPython evaluates `max_size / width`, `0.21 * r`,
float sums and products in binary64 with round-to-nearest, ties-to-even,
and `int(x)` truncates toward zero.  Every finite double is a rational
number, and every operation used by the code is "exact rational result,
then correctly rounded", so we model doubles exactly inside ℚ:
`fpRound q` rounds a rational to the nearest binary64 value (with
subnormal handling below `2^-1022` and overflow at `2^1024`, where
CPython raises `OverflowError`).
-/

/-- Round a rational to the nearest integer, ties going to the even integer.
This is the integer core of round-to-nearest-even. -/
def rhe (x : ℚ) : ℤ :=
  if x - (⌊x⌋ : ℚ) < 1/2 then ⌊x⌋
  else if (1/2 : ℚ) < x - (⌊x⌋ : ℚ) then ⌊x⌋ + 1
  else if Even ⌊x⌋ then ⌊x⌋ else ⌊x⌋ + 1

theorem rhe_intCast (n : ℤ) : rhe (n : ℚ) = n := by
  unfold rhe
  rw [Int.floor_intCast, sub_self]
  rw [if_pos (by norm_num)]

theorem floor_le_rhe (x : ℚ) : ⌊x⌋ ≤ rhe x := by
  unfold rhe
  split_ifs <;> omega

theorem rhe_le_floor_add_one (x : ℚ) : rhe x ≤ ⌊x⌋ + 1 := by
  unfold rhe
  split_ifs <;> omega

theorem rhe_le (x : ℚ) : (rhe x : ℚ) ≤ x + 1/2 := by
  have hfl : (⌊x⌋ : ℚ) ≤ x := Int.floor_le x
  unfold rhe
  split_ifs with h1 h2 h3 <;> push_cast <;> linarith

theorem le_rhe (x : ℚ) : x - 1/2 ≤ (rhe x : ℚ) := by
  have hfl : x < (⌊x⌋ : ℚ) + 1 := Int.lt_floor_add_one x
  unfold rhe
  split_ifs with h1 h2 h3 <;> push_cast <;> linarith

theorem rhe_mono {x y : ℚ} (hxy : x ≤ y) : rhe x ≤ rhe y := by
  have hf : ⌊x⌋ ≤ ⌊y⌋ := Int.floor_mono hxy
  rcases lt_or_eq_of_le hf with hlt | heq
  · calc rhe x ≤ ⌊x⌋ + 1 := rhe_le_floor_add_one x
      _ ≤ ⌊y⌋ := hlt
      _ ≤ rhe y := floor_le_rhe y
  · unfold rhe
    rw [← heq]
    split_ifs <;> first | omega | linarith

theorem rhe_le_int {x : ℚ} {N : ℤ} (h : x ≤ (N : ℚ)) : rhe x ≤ N := by
  have h2 := rhe_mono h
  rwa [rhe_intCast] at h2

theorem int_le_rhe {x : ℚ} {N : ℤ} (h : (N : ℚ) ≤ x) : N ≤ rhe x := by
  have h2 := rhe_mono h
  rwa [rhe_intCast] at h2

theorem rhe_nonneg {x : ℚ} (h : 0 ≤ x) : 0 ≤ rhe x :=
  @int_le_rhe x 0 (by exact_mod_cast h)

theorem rhe_eq_of_lt_half {x : ℚ} {n : ℤ} (h1 : (n : ℚ) ≤ x) (h2 : x < (n : ℚ) + 1/2) :
    rhe x = n := by
  have hfl : ⌊x⌋ = n := Int.floor_eq_iff.mpr ⟨h1, by linarith⟩
  unfold rhe
  rw [hfl, if_pos (by push_cast; linarith)]

theorem rhe_eq_of_half_lt {x : ℚ} {n : ℤ} (h1 : (n : ℚ) + 1/2 < x) (h2 : x ≤ (n : ℚ) + 1) :
    rhe x = n + 1 := by
  rcases lt_or_eq_of_le h2 with hlt | heqx
  · have hfl : ⌊x⌋ = n := Int.floor_eq_iff.mpr ⟨by linarith, by push_cast; linarith⟩
    unfold rhe
    rw [hfl, if_neg (by push_cast; linarith), if_pos (by push_cast; linarith)]
  · have hx : x = (((n + 1) : ℤ) : ℚ) := by push_cast; linarith
    rw [hx, rhe_intCast]

theorem rhe_tie_even {n : ℤ} (he : Even n) : rhe ((n : ℚ) + 1/2) = n := by
  have hfl : ⌊(n : ℚ) + 1/2⌋ = n := Int.floor_eq_iff.mpr ⟨by linarith, by push_cast; linarith⟩
  unfold rhe
  rw [hfl, if_neg (by push_cast; linarith), if_neg (by push_cast; linarith), if_pos he]

theorem rhe_tie_odd {n : ℤ} (ho : ¬ Even n) : rhe ((n : ℚ) + 1/2) = n + 1 := by
  have hfl : ⌊(n : ℚ) + 1/2⌋ = n := Int.floor_eq_iff.mpr ⟨by linarith, by push_cast; linarith⟩
  unfold rhe
  rw [hfl, if_neg (by push_cast; linarith), if_neg (by push_cast; linarith), if_neg ho]

/-- Binade exponent: for positive `q`, the unique `e` with `2^e ≤ q < 2^(e+1)`. -/
def bexp (q : ℚ) : ℤ := Int.log 2 q

/-- Quantum exponent of binary64 at magnitude `q`: normal numbers round on the
grid `2^(bexp q - 52)`, subnormals on the fixed grid `2^(-1074)`. -/
def kexp (q : ℚ) : ℤ := max (bexp q - 52) (-1074)

/-- Round a positive rational onto the binary64 grid (round to nearest, ties
to even); the overflow check is done by `fpRound`. -/
def fpRoundPos (q : ℚ) : ℚ := (rhe (q / 2 ^ kexp q) : ℚ) * 2 ^ kexp q

/-- Exact binary64 rounding of a rational: round to nearest, ties to even;
`none` models the result overflowing to infinity (CPython raises
`OverflowError` in every spot where this model can return `none`). -/
def fpRound (q : ℚ) : Option ℚ :=
  if q = 0 then some 0
  else if q < 0 then
    if fpRoundPos (-q) < 2 ^ (1024 : ℤ) then some (-fpRoundPos (-q)) else none
  else if fpRoundPos q < 2 ^ (1024 : ℤ) then some (fpRoundPos q) else none

/-- Total version of `fpRound` on nonnegative non-overflowing inputs. -/
def fpRoundN (q : ℚ) : ℚ := if q ≤ 0 then 0 else fpRoundPos q

theorem two_zpow_pos (e : ℤ) : (0 : ℚ) < 2 ^ e := zpow_pos (by norm_num) e

theorem two_zpow_ne_zero (e : ℤ) : (2 : ℚ) ^ e ≠ 0 := ne_of_gt (two_zpow_pos e)

theorem two_zpow_le_two_zpow {a b : ℤ} (h : a ≤ b) : (2 : ℚ) ^ a ≤ 2 ^ b :=
  zpow_le_zpow_right₀ (by norm_num) h

theorem two_zpow_lt_two_zpow {a b : ℤ} (h : a < b) : (2 : ℚ) ^ a < 2 ^ b :=
  zpow_lt_zpow_right₀ (by norm_num) h

theorem two_zpow_int {m : ℤ} (hm : 0 ≤ m) : ((2 ^ m.toNat : ℤ) : ℚ) = (2 : ℚ) ^ m := by
  push_cast
  rw [← zpow_natCast (2 : ℚ) m.toNat, Int.toNat_of_nonneg hm]

theorem bexp_le {q : ℚ} (hq : 0 < q) : (2 : ℚ) ^ bexp q ≤ q :=
  Int.zpow_log_le_self (by norm_num) hq

theorem lt_bexp_succ (q : ℚ) : q < (2 : ℚ) ^ (bexp q + 1) :=
  Int.lt_zpow_succ_log_self (by norm_num) q

theorem bexp_unique {q : ℚ} {e : ℤ} (h1 : (2 : ℚ) ^ e ≤ q) (h2 : q < 2 ^ (e + 1)) :
    bexp q = e := by
  have hq : 0 < q := lt_of_lt_of_le (two_zpow_pos e) h1
  have hle : e ≤ bexp q := (Int.zpow_le_iff_le_log (by norm_num) hq).mp h1
  have hlt : bexp q < e + 1 := (Int.lt_zpow_iff_log_lt (by norm_num) hq).mp h2
  omega

theorem bexp_mono {q q' : ℚ} (h0 : 0 < q) (h : q ≤ q') : bexp q ≤ bexp q' :=
  Int.log_mono_right h0 h

theorem bexp_le_of_lt {q : ℚ} {e : ℤ} (h0 : 0 < q) (h : q < 2 ^ e) : bexp q ≤ e - 1 :=
  Int.le_sub_one_of_lt ((Int.lt_zpow_iff_log_lt (by norm_num) h0).mp h)

theorem le_bexp_of_le {q : ℚ} {e : ℤ} (h : (2 : ℚ) ^ e ≤ q) : e ≤ bexp q := by
  have hq : 0 < q := lt_of_lt_of_le (two_zpow_pos e) h
  exact (Int.zpow_le_iff_le_log (by norm_num) hq).mp h

theorem fpRoundPos_nonneg {q : ℚ} (h : 0 ≤ q) : 0 ≤ fpRoundPos q :=
  mul_nonneg (by exact_mod_cast rhe_nonneg (div_nonneg h (le_of_lt (two_zpow_pos _))))
    (le_of_lt (two_zpow_pos _))

theorem kexp_eq_normal {q : ℚ} (h : -1022 ≤ bexp q) : kexp q = bexp q - 52 :=
  max_eq_left (by omega)

theorem fpRoundPos_mono {q q' : ℚ} (h0 : 0 < q) (hle : q ≤ q') :
    fpRoundPos q ≤ fpRoundPos q' := by
  have h0' : 0 < q' := lt_of_lt_of_le h0 hle
  have hbe : bexp q ≤ bexp q' := bexp_mono h0 hle
  have hke : kexp q ≤ kexp q' := max_le_max (by omega) le_rfl
  rcases eq_or_lt_of_le hke with hkk | hkk
  · unfold fpRoundPos
    rw [← hkk]
    have hx : q / 2 ^ kexp q ≤ q' / 2 ^ kexp q :=
      (div_le_div_iff_of_pos_right (two_zpow_pos _)).mpr hle
    exact mul_le_mul_of_nonneg_right (by exact_mod_cast rhe_mono hx)
      (le_of_lt (two_zpow_pos _))
  · have hmax1 : bexp q - 52 ≤ kexp q := le_max_left _ _
    have hmax2 : (-1074 : ℤ) ≤ kexp q := le_max_right _ _
    have hk' : kexp q' = bexp q' - 52 := by
      have h1074 : (-1074 : ℤ) < kexp q' := lt_of_le_of_lt hmax2 hkk
      rcases le_or_lt (-1074 : ℤ) (bexp q' - 52) with hc | hc
      · exact max_eq_left hc
      · exfalso
        have hr : kexp q' = -1074 := max_eq_right (le_of_lt hc)
        omega
    have hee : bexp q + 1 ≤ bexp q' := by omega
    have hA : fpRoundPos q ≤ (2 : ℚ) ^ bexp q' := by
      have hd : (0 : ℤ) ≤ bexp q' - kexp q := by omega
      have hxM : q / 2 ^ kexp q ≤ ((2 ^ (bexp q' - kexp q).toNat : ℤ) : ℚ) := by
        rw [two_zpow_int hd, div_le_iff₀ (two_zpow_pos _),
          ← zpow_add₀ (by norm_num : (2 : ℚ) ≠ 0)]
        have : bexp q' - kexp q + kexp q = bexp q' := by ring
        rw [this]
        exact le_of_lt (lt_of_lt_of_le (lt_bexp_succ q) (two_zpow_le_two_zpow hee))
      have hrhe := rhe_le_int hxM
      unfold fpRoundPos
      calc (rhe (q / 2 ^ kexp q) : ℚ) * 2 ^ kexp q
          ≤ ((2 ^ (bexp q' - kexp q).toNat : ℤ) : ℚ) * 2 ^ kexp q :=
            mul_le_mul_of_nonneg_right (by exact_mod_cast hrhe) (le_of_lt (two_zpow_pos _))
        _ = (2 : ℚ) ^ bexp q' := by
            rw [two_zpow_int hd, ← zpow_add₀ (by norm_num : (2 : ℚ) ≠ 0)]
            norm_num
    have hB : (2 : ℚ) ^ bexp q' ≤ fpRoundPos q' := by
      have hcast : ((4503599627370496 : ℤ) : ℚ) = (2 : ℚ) ^ (52 : ℤ) := by norm_num
      have h52 : (52 : ℤ) + (bexp q' - 52) = bexp q' := by ring
      have hxM : ((4503599627370496 : ℤ) : ℚ) ≤ q' / 2 ^ kexp q' := by
        rw [hcast, le_div_iff₀ (two_zpow_pos _), hk',
          ← zpow_add₀ (by norm_num : (2 : ℚ) ≠ 0), h52]
        exact bexp_le h0'
      have hrhe := int_le_rhe hxM
      unfold fpRoundPos
      have hgrid : (2 : ℚ) ^ bexp q' = ((4503599627370496 : ℤ) : ℚ) * 2 ^ kexp q' := by
        rw [hcast, hk', ← zpow_add₀ (by norm_num : (2 : ℚ) ≠ 0), h52]
      rw [hgrid]
      exact mul_le_mul_of_nonneg_right (by exact_mod_cast hrhe) (le_of_lt (two_zpow_pos _))
    exact le_trans hA hB

theorem fpRoundPos_le_rel {q : ℚ} (h : (2 : ℚ) ^ (-1022 : ℤ) ≤ q) :
    fpRoundPos q ≤ q * (1 + 2 ^ (-53 : ℤ)) := by
  have hq : 0 < q := lt_of_lt_of_le (two_zpow_pos _) h
  have hbe : (-1022 : ℤ) ≤ bexp q := le_bexp_of_le h
  have hk : kexp q = bexp q - 52 := kexp_eq_normal hbe
  have step1 : fpRoundPos q ≤ (q / 2 ^ kexp q + 1/2) * 2 ^ kexp q :=
    mul_le_mul_of_nonneg_right (rhe_le _) (le_of_lt (two_zpow_pos _))
  have step2 : (q / 2 ^ kexp q + 1/2) * 2 ^ kexp q = q + 2 ^ kexp q / 2 := by
    rw [add_mul, div_mul_cancel₀ _ (two_zpow_ne_zero _)]
    ring
  have step3 : (2 : ℚ) ^ kexp q / 2 ≤ q * 2 ^ (-53 : ℤ) := by
    have he : (2 : ℚ) ^ kexp q / 2 = 2 ^ bexp q * 2 ^ (-53 : ℤ) := by
      rw [hk, div_eq_mul_inv, ← zpow_neg_one,
        ← zpow_add₀ (by norm_num : (2 : ℚ) ≠ 0), ← zpow_add₀ (by norm_num : (2 : ℚ) ≠ 0)]
      congr 1
      ring
    rw [he]
    exact mul_le_mul_of_nonneg_right (bexp_le hq) (le_of_lt (two_zpow_pos _))
  have hcomb : fpRoundPos q ≤ q + 2 ^ kexp q / 2 := step2 ▸ step1
  calc fpRoundPos q ≤ q + 2 ^ kexp q / 2 := hcomb
    _ ≤ q + q * 2 ^ (-53 : ℤ) := by linarith
    _ = q * (1 + 2 ^ (-53 : ℤ)) := by ring

theorem fpRoundPos_ge_rel {q : ℚ} (h : (2 : ℚ) ^ (-1022 : ℤ) ≤ q) :
    q * (1 - 2 ^ (-53 : ℤ)) ≤ fpRoundPos q := by
  have hq : 0 < q := lt_of_lt_of_le (two_zpow_pos _) h
  have hbe : (-1022 : ℤ) ≤ bexp q := le_bexp_of_le h
  have hk : kexp q = bexp q - 52 := kexp_eq_normal hbe
  have step1 : (q / 2 ^ kexp q - 1/2) * 2 ^ kexp q ≤ fpRoundPos q :=
    mul_le_mul_of_nonneg_right (le_rhe _) (le_of_lt (two_zpow_pos _))
  have step2 : (q / 2 ^ kexp q - 1/2) * 2 ^ kexp q = q - 2 ^ kexp q / 2 := by
    rw [sub_mul, div_mul_cancel₀ _ (two_zpow_ne_zero _)]
    ring
  have step3 : (2 : ℚ) ^ kexp q / 2 ≤ q * 2 ^ (-53 : ℤ) := by
    have he : (2 : ℚ) ^ kexp q / 2 = 2 ^ bexp q * 2 ^ (-53 : ℤ) := by
      rw [hk, div_eq_mul_inv, ← zpow_neg_one,
        ← zpow_add₀ (by norm_num : (2 : ℚ) ≠ 0), ← zpow_add₀ (by norm_num : (2 : ℚ) ≠ 0)]
      congr 1
      ring
    rw [he]
    exact mul_le_mul_of_nonneg_right (bexp_le hq) (le_of_lt (two_zpow_pos _))
  have hcomb : q - 2 ^ kexp q / 2 ≤ fpRoundPos q := step2 ▸ step1
  calc q * (1 - 2 ^ (-53 : ℤ)) = q - q * 2 ^ (-53 : ℤ) := by ring
    _ ≤ q - 2 ^ kexp q / 2 := by linarith
    _ ≤ fpRoundPos q := hcomb

theorem fpRoundPos_lt_huge {q : ℚ} (h0 : 0 < q) (h : q < 2 ^ (1023 : ℤ)) :
    fpRoundPos q < 2 ^ (1024 : ℤ) := by
  rcases le_or_lt ((2 : ℚ) ^ (-1022 : ℤ)) q with hn | hs
  · have hbe : (-1022 : ℤ) ≤ bexp q := le_bexp_of_le hn
    have hk : kexp q = bexp q - 52 := kexp_eq_normal hbe
    have heb : bexp q ≤ 1022 := by
      have := bexp_le_of_lt h0 h
      omega
    have hcast : ((9007199254740992 : ℤ) : ℚ) = (2 : ℚ) ^ (53 : ℤ) := by norm_num
    have hxN : q / 2 ^ kexp q ≤ ((9007199254740992 : ℤ) : ℚ) := by
      rw [hcast, div_le_iff₀ (two_zpow_pos _), hk,
        ← zpow_add₀ (by norm_num : (2 : ℚ) ≠ 0)]
      have harith : (53 : ℤ) + (bexp q - 52) = bexp q + 1 := by ring
      rw [harith]
      exact le_of_lt (lt_bexp_succ q)
    have hrhe := rhe_le_int hxN
    have hfp : fpRoundPos q ≤ (2 : ℚ) ^ (bexp q + 1) := by
      unfold fpRoundPos
      have hgrid : ((9007199254740992 : ℤ) : ℚ) * 2 ^ kexp q = (2 : ℚ) ^ (bexp q + 1) := by
        rw [hcast, hk, ← zpow_add₀ (by norm_num : (2 : ℚ) ≠ 0)]
        congr 1
        ring
      rw [← hgrid]
      exact mul_le_mul_of_nonneg_right (by exact_mod_cast hrhe) (le_of_lt (two_zpow_pos _))
    exact lt_of_le_of_lt hfp (two_zpow_lt_two_zpow (by omega))
  · have hbe : bexp q ≤ -1023 := by
      have := bexp_le_of_lt h0 hs
      omega
    have hk : kexp q = -1074 := max_eq_right (by omega)
    have hcast : ((4503599627370496 : ℤ) : ℚ) = (2 : ℚ) ^ (52 : ℤ) := by norm_num
    have hxN : q / 2 ^ kexp q ≤ ((4503599627370496 : ℤ) : ℚ) := by
      rw [hcast, div_le_iff₀ (two_zpow_pos _), hk,
        ← zpow_add₀ (by norm_num : (2 : ℚ) ≠ 0)]
      rw [show (52 : ℤ) + (-1074) = -1022 by norm_num]
      exact le_of_lt hs
    have hrhe := rhe_le_int hxN
    have hfp : fpRoundPos q ≤ (2 : ℚ) ^ (-1022 : ℤ) := by
      unfold fpRoundPos
      have hgrid : ((4503599627370496 : ℤ) : ℚ) * 2 ^ kexp q = (2 : ℚ) ^ (-1022 : ℤ) := by
        rw [hcast, hk, ← zpow_add₀ (by norm_num : (2 : ℚ) ≠ 0)]
        congr 1
      rw [← hgrid]
      exact mul_le_mul_of_nonneg_right (by exact_mod_cast hrhe) (le_of_lt (two_zpow_pos _))
    exact lt_of_le_of_lt hfp (two_zpow_lt_two_zpow (by omega))

theorem fpRound_of_pos {q : ℚ} (h0 : 0 < q) (hov : fpRoundPos q < 2 ^ (1024 : ℤ)) :
    fpRound q = some (fpRoundPos q) := by
  unfold fpRound
  rw [if_neg (ne_of_gt h0), if_neg (not_lt.mpr (le_of_lt h0)), if_pos hov]

theorem fpRound_eq_some {q : ℚ} (h0 : 0 ≤ q) (h : q < 2 ^ (1023 : ℤ)) :
    fpRound q = some (fpRoundN q) := by
  rcases eq_or_lt_of_le h0 with hq0 | hq
  · rw [← hq0]
    unfold fpRound fpRoundN
    norm_num
  · rw [fpRound_of_pos hq (fpRoundPos_lt_huge hq h)]
    unfold fpRoundN
    rw [if_neg (not_le.mpr hq)]

theorem fpRoundN_nonneg (q : ℚ) : 0 ≤ fpRoundN q := by
  unfold fpRoundN
  split_ifs with h
  · exact le_refl 0
  · exact fpRoundPos_nonneg (le_of_lt (not_le.mp h))

theorem fpRoundN_mono {q q' : ℚ} (h : q ≤ q') : fpRoundN q ≤ fpRoundN q' := by
  unfold fpRoundN
  split_ifs with h1 h2 h2
  · exact le_refl 0
  · exact fpRoundPos_nonneg (le_of_lt (not_le.mp h2))
  · exact absurd (le_trans h h2) h1
  · exact fpRoundPos_mono (not_le.mp h1) h

theorem fpRound_nonneg {q r : ℚ} (h0 : 0 ≤ q) (hr : fpRound q = some r) : 0 ≤ r := by
  rcases eq_or_lt_of_le h0 with hq0 | hq
  · rw [← hq0] at hr
    unfold fpRound at hr
    rw [if_pos rfl, Option.some_inj] at hr
    rw [← hr]
  · unfold fpRound at hr
    rw [if_neg (ne_of_gt hq), if_neg (not_lt.mpr (le_of_lt hq))] at hr
    by_cases hov : fpRoundPos q < 2 ^ (1024 : ℤ)
    · rw [if_pos hov, Option.some_inj] at hr
      rw [← hr]
      exact fpRoundPos_nonneg (le_of_lt hq)
    · rw [if_neg hov] at hr
      exact absurd hr (by simp)

theorem fpRoundPos_dyadic {n t : ℤ} (h0 : 0 < n) (hn : n < 2 ^ 53) (ht : -1074 ≤ t) :
    fpRoundPos ((n : ℚ) * 2 ^ t) = (n : ℚ) * 2 ^ t := by
  have hnq : (0 : ℚ) < (n : ℚ) := by exact_mod_cast h0
  have hq : 0 < (n : ℚ) * 2 ^ t := mul_pos hnq (two_zpow_pos t)
  have hj1 : (2 : ℚ) ^ bexp (n : ℚ) ≤ (n : ℚ) := bexp_le hnq
  have hj2 : (n : ℚ) < 2 ^ (bexp (n : ℚ) + 1) := lt_bexp_succ _
  have hj52 : bexp (n : ℚ) ≤ 52 := by
    have hlt : (n : ℚ) < 2 ^ (53 : ℤ) := by
      have hc : ((n : ℤ) : ℚ) < ((2 ^ 53 : ℤ) : ℚ) := by exact_mod_cast hn
      calc (n : ℚ) < ((2 ^ 53 : ℤ) : ℚ) := hc
        _ = 2 ^ (53 : ℤ) := by norm_num
    have := bexp_le_of_lt hnq hlt
    omega
  have hbq : bexp ((n : ℚ) * 2 ^ t) = bexp (n : ℚ) + t := by
    apply bexp_unique
    · rw [zpow_add₀ (by norm_num : (2 : ℚ) ≠ 0)]
      exact mul_le_mul_of_nonneg_right hj1 (le_of_lt (two_zpow_pos _))
    · have harith : bexp (n : ℚ) + t + 1 = (bexp (n : ℚ) + 1) + t := by ring
      rw [harith, zpow_add₀ (by norm_num : (2 : ℚ) ≠ 0)]
      exact mul_lt_mul_of_pos_right hj2 (two_zpow_pos _)
  have hkt : kexp ((n : ℚ) * 2 ^ t) ≤ t := by
    unfold kexp
    rw [hbq]
    exact max_le (by omega) ht
  have hd : (0 : ℤ) ≤ t - kexp ((n : ℚ) * 2 ^ t) := by omega
  have key : (n : ℚ) * 2 ^ t / 2 ^ kexp ((n : ℚ) * 2 ^ t) =
      ((n * 2 ^ (t - kexp ((n : ℚ) * 2 ^ t)).toNat : ℤ) : ℚ) := by
    have hc : ((n * 2 ^ (t - kexp ((n : ℚ) * 2 ^ t)).toNat : ℤ) : ℚ) =
        (n : ℚ) * 2 ^ (t - kexp ((n : ℚ) * 2 ^ t)) := by
      push_cast
      rw [← zpow_natCast (2 : ℚ) (t - kexp ((n : ℚ) * 2 ^ t)).toNat,
        Int.toNat_of_nonneg hd]
    rw [hc, div_eq_iff (two_zpow_ne_zero _), mul_assoc,
      ← zpow_add₀ (by norm_num : (2 : ℚ) ≠ 0)]
    rw [show t - kexp ((n : ℚ) * 2 ^ t) + kexp ((n : ℚ) * 2 ^ t) = t by ring]
  unfold fpRoundPos
  rw [key, rhe_intCast, ← key, div_mul_cancel₀ _ (two_zpow_ne_zero _)]

theorem fpRound_dyadic {n t : ℤ} (h0 : 0 < n) (hn : n < 2 ^ 53) (ht : -1074 ≤ t)
    (hov : (n : ℚ) * 2 ^ t < 2 ^ (1024 : ℤ)) :
    fpRound ((n : ℚ) * 2 ^ t) = some ((n : ℚ) * 2 ^ t) := by
  have hq : 0 < (n : ℚ) * 2 ^ t := mul_pos (by exact_mod_cast h0) (two_zpow_pos t)
  rw [fpRound_of_pos hq (by rw [fpRoundPos_dyadic h0 hn ht]; exact hov),
    fpRoundPos_dyadic h0 hn ht]

theorem fpRoundN_dyadic {n t : ℤ} (h0 : 0 ≤ n) (hn : n < 2 ^ 53) (ht : -1074 ≤ t) :
    fpRoundN ((n : ℚ) * 2 ^ t) = (n : ℚ) * 2 ^ t := by
  rcases eq_or_lt_of_le h0 with hn0 | hpos
  · rw [← hn0]
    norm_num [fpRoundN]
  · unfold fpRoundN
    rw [if_neg (not_le.mpr (mul_pos (by exact_mod_cast hpos) (two_zpow_pos t)))]
    exact fpRoundPos_dyadic hpos hn ht

theorem fpRoundN_intCast {n : ℤ} (h0 : 0 ≤ n) (hn : n < 2 ^ 53) : fpRoundN (n : ℚ) = (n : ℚ) := by
  have key := fpRoundN_dyadic h0 hn (by norm_num : (-1074 : ℤ) ≤ 0)
  rwa [zpow_zero, mul_one] at key

theorem fpRound_intCast {n : ℤ} (h0 : 0 ≤ n) (hn : n < 2 ^ 53) :
    fpRound (n : ℚ) = some (n : ℚ) := by
  have hb : (n : ℚ) < 2 ^ (1023 : ℤ) := by
    calc (n : ℚ) < ((2 ^ 53 : ℤ) : ℚ) := by exact_mod_cast hn
      _ < 2 ^ (1023 : ℤ) := by norm_num
  rw [fpRound_eq_some (by exact_mod_cast h0) hb, fpRoundN_intCast h0 hn]

theorem fpRoundN_half {m : ℤ} (h0 : 0 ≤ m) (hm : 2 * m + 1 < 2 ^ 53) :
    fpRoundN ((m : ℚ) + 1/2) = (m : ℚ) + 1/2 := by
  have key := fpRoundN_dyadic (show (0 : ℤ) ≤ 2 * m + 1 by omega) hm
    (show (-1074 : ℤ) ≤ -1 by norm_num)
  have harg : ((2 * m + 1 : ℤ) : ℚ) * 2 ^ (-1 : ℤ) = (m : ℚ) + 1/2 := by
    push_cast
    rw [zpow_neg_one]
    ring
  rwa [harg] at key

theorem fpRound_eval {q r x : ℚ} {e k n : ℤ} (h0 : 0 < q)
    (he1 : (2 : ℚ) ^ e ≤ q) (he2 : q < 2 ^ (e + 1)) (hk : k = max (e - 52) (-1074))
    (hx : q / 2 ^ k = x) (hn : rhe x = n) (hr : (n : ℚ) * 2 ^ k = r)
    (hov : r < 2 ^ (1024 : ℤ)) : fpRound q = some r := by
  have hbe : bexp q = e := bexp_unique he1 he2
  have hkk : kexp q = k := by
    unfold kexp
    rw [hbe, ← hk]
  have hfp : fpRoundPos q = r := by
    unfold fpRoundPos
    rw [hkk, hx, hn, hr]
  rw [fpRound_of_pos h0 (by rw [hfp]; exact hov), hfp]

theorem fpRoundN_eval {q r x : ℚ} {e k n : ℤ} (h0 : 0 < q)
    (he1 : (2 : ℚ) ^ e ≤ q) (he2 : q < 2 ^ (e + 1)) (hk : k = max (e - 52) (-1074))
    (hx : q / 2 ^ k = x) (hn : rhe x = n) (hr : (n : ℚ) * 2 ^ k = r) :
    fpRoundN q = r := by
  have hbe : bexp q = e := bexp_unique he1 he2
  have hkk : kexp q = k := by
    unfold kexp
    rw [hbe, ← hk]
  unfold fpRoundN
  rw [if_neg (not_le.mpr h0)]
  unfold fpRoundPos
  rw [hkk, hx, hn, hr]

/-- The error conditions CPython raises in this library: `ValueError` (the
spec's `InvalidArgument`) with its message, and `OverflowError` from float
conversions or arithmetic on astronomically large values. -/
inductive PyErr where
  | valueError : String → PyErr
  | overflowError : PyErr
deriving DecidableEq

/-- Python `int(x)` applied to a float value: truncation toward zero. -/
def pyTrunc (x : ℚ) : ℤ := if x < 0 then -⌊-x⌋ else ⌊x⌋

/-- Land on a binary64 value or raise `OverflowError`. -/
def pyFloat (q : ℚ) : Except PyErr ℚ :=
  match fpRound q with
  | some r => .ok r
  | none => .error .overflowError

/-- CPython conversion of an `int` to a float (`PyLong_AsDouble`):
correctly rounded, `OverflowError` beyond the finite range. -/
def pyIntToFloat (n : ℤ) : Except PyErr ℚ := pyFloat (n : ℚ)

/-- CPython `int / int` true division: correctly rounded exact quotient.
Division by zero is unreachable in this library (all call sites validate
positivity of the divisor first). -/
def pyDivIntInt (a b : ℤ) : Except PyErr ℚ := pyFloat ((a : ℚ) / (b : ℚ))

/-- Binary64 product of two float values. -/
def pyMulFloat (x y : ℚ) : Except PyErr ℚ := pyFloat (x * y)

/-- Binary64 sum of two float values. -/
def pyAddFloat (x y : ℚ) : Except PyErr ℚ := pyFloat (x + y)

/-- Python `int * float`: the int is converted to binary64, then multiplied. -/
def pyMulIntFloat (n : ℤ) (x : ℚ) : Except PyErr ℚ := do
  let nf ← pyIntToFloat n
  pyMulFloat nf x

/-- Python `float * int`: the int is converted to binary64, then multiplied. -/
def pyMulFloatInt (x : ℚ) (n : ℤ) : Except PyErr ℚ := do
  let nf ← pyIntToFloat n
  pyMulFloat x nf

/-- The binary64 value denoted by the source literal `0.21`. -/
def lit021 : ℚ := (fpRound (21/100)).getD 0

/-- The binary64 value denoted by the source literal `0.72`. -/
def lit072 : ℚ := (fpRound (72/100)).getD 0

/-- The binary64 value denoted by the source literal `0.07`. -/
def lit007 : ℚ := (fpRound (7/100)).getD 0

/-- Embedding of calculate_aspect_ratio from `src/image_utils.py`: validate
positivity, then return the binary64 quotient `width / height`. -/
def calculate_aspect_ratio (width height : ℤ) : Except PyErr ℚ :=
  if width ≤ 0 ∨ height ≤ 0 then
    .error (.valueError "Width and height must be positive integers")
  else pyDivIntInt width height

/-- Embedding of `resize_dimensions` from `src/image_utils.py`: validate
positivity; return the input pair unchanged if it already fits; otherwise
compute `scale = max_size / width` when `width > height`, else
`scale = max_size / height`, and return
`(int(width * scale), int(height * scale))`. -/
def resize_dimensions (width height max_size : ℤ) : Except PyErr (ℤ × ℤ) :=
  if width ≤ 0 ∨ height ≤ 0 ∨ max_size ≤ 0 then
    .error (.valueError "All dimensions must be positive integers")
  else if width ≤ max_size ∧ height ≤ max_size then
    .ok (width, height)
  else do
    let scale ← if height < width then pyDivIntInt max_size width
      else pyDivIntInt max_size height
    let a ← pyMulIntFloat width scale
    let b ← pyMulIntFloat height scale
    .ok (pyTrunc a, pyTrunc b)

/-- Embedding of `rgb_to_grayscale` from `src/image_utils.py`: validate the
channels in the order r, g, b, then return
`int(0.21 * r + 0.72 * g + 0.07 * b)` evaluated in binary64, left to right. -/
def rgb_to_grayscale (r g b : ℤ) : Except PyErr ℤ :=
  if ¬(0 ≤ r ∧ r ≤ 255) then .error (.valueError "r must be between 0 and 255")
  else if ¬(0 ≤ g ∧ g ≤ 255) then .error (.valueError "g must be between 0 and 255")
  else if ¬(0 ≤ b ∧ b ≤ 255) then .error (.valueError "b must be between 0 and 255")
  else do
    let t1 ← pyMulFloatInt lit021 r
    let t2 ← pyMulFloatInt lit072 g
    let s1 ← pyAddFloat t1 t2
    let t3 ← pyMulFloatInt lit007 b
    let s2 ← pyAddFloat s1 t3
    .ok (pyTrunc s2)

/-- Embedding of `is_valid_resolution` from `src/image_utils.py`; in the
source `min_width` and `min_height` are optional parameters defaulting
to `1`.  The function is a pure comparison returning a `Bool` — it has no
error path at all. -/
def is_valid_resolution (width height min_width min_height : ℤ) : Bool :=
  decide (width ≥ min_width) && decide (height ≥ min_height)

theorem lit021_eq : lit021 = 7566047373982433 / 36028797018963968 := by
  have h : fpRound (21/100 : ℚ) = some (7566047373982433 / 36028797018963968) :=
    fpRound_eval (by norm_num)
      (by norm_num : (2 : ℚ) ^ (-3 : ℤ) ≤ 21/100)
      (by norm_num : (21/100 : ℚ) < 2 ^ ((-3 : ℤ) + 1))
      (by decide : (-55 : ℤ) = max ((-3) - 52) (-1074))
      (by norm_num : (21/100 : ℚ) / 2 ^ (-55 : ℤ) = 189151184349560832/25)
      (rhe_eq_of_lt_half (by norm_num) (by norm_num))
      (by norm_num : ((7566047373982433 : ℤ) : ℚ) * 2 ^ (-55 : ℤ) =
        7566047373982433 / 36028797018963968)
      (by norm_num)
  unfold lit021
  rw [h]
  rfl

theorem lit072_eq : lit072 = 3242591731706757 / 4503599627370496 := by
  have h : fpRound (72/100 : ℚ) = some (3242591731706757 / 4503599627370496) :=
    fpRound_eval (by norm_num)
      (by norm_num : (2 : ℚ) ^ (-1 : ℤ) ≤ 72/100)
      (by norm_num : (72/100 : ℚ) < 2 ^ ((-1 : ℤ) + 1))
      (by decide : (-53 : ℤ) = max ((-1) - 52) (-1074))
      (by norm_num : (72/100 : ℚ) / 2 ^ (-53 : ℤ) = 162129586585337856/25)
      (rhe_eq_of_lt_half (by norm_num) (by norm_num))
      (by norm_num : ((6485183463413514 : ℤ) : ℚ) * 2 ^ (-53 : ℤ) =
        3242591731706757 / 4503599627370496)
      (by norm_num)
  unfold lit072
  rw [h]
  rfl

theorem lit007_eq : lit007 = 1261007895663739 / 18014398509481984 := by
  have h : fpRound (7/100 : ℚ) = some (1261007895663739 / 18014398509481984) :=
    fpRound_eval (by norm_num)
      (by norm_num : (2 : ℚ) ^ (-4 : ℤ) ≤ 7/100)
      (by norm_num : (7/100 : ℚ) < 2 ^ ((-4 : ℤ) + 1))
      (by decide : (-56 : ℤ) = max ((-4) - 52) (-1074))
      (by norm_num : (7/100 : ℚ) / 2 ^ (-56 : ℤ) = 126100789566373888/25)
      (show rhe (126100789566373888/25) = 5044031582654956 by
        rw [show (5044031582654956 : ℤ) = 5044031582654955 + 1 by norm_num]
        exact rhe_eq_of_half_lt (by norm_num) (by norm_num))
      (by norm_num : ((5044031582654956 : ℤ) : ℚ) * 2 ^ (-56 : ℤ) =
        1261007895663739 / 18014398509481984)
      (by norm_num)
  unfold lit007
  rw [h]
  rfl

theorem bind_ok {α β : Type} (a : α) (f : α → Except PyErr β) :
    (Except.ok a : Except PyErr α) >>= f = f a := rfl

theorem lit021_bounds : (0 : ℚ) < lit021 ∧ lit021 ≤ 1 := by
  rw [lit021_eq]
  norm_num

theorem lit072_bounds : (0 : ℚ) < lit072 ∧ lit072 ≤ 1 := by
  rw [lit072_eq]
  norm_num

theorem lit007_bounds : (0 : ℚ) < lit007 ∧ lit007 ≤ 1 := by
  rw [lit007_eq]
  norm_num

theorem fpRoundN_le_anchor {q : ℚ} {N : ℤ} (h : q ≤ (N : ℚ)) (h0 : 0 ≤ N) (hN : N < 2 ^ 53) :
    fpRoundN q ≤ (N : ℚ) := by
  calc fpRoundN q ≤ fpRoundN (N : ℚ) := fpRoundN_mono h
    _ = (N : ℚ) := fpRoundN_intCast h0 hN

theorem pyMulFloatInt_ok {x : ℚ} {n : ℤ} (hx0 : 0 ≤ x) (hx1 : x ≤ 1)
    (hn0 : 0 ≤ n) (hn1 : n ≤ 255) :
    pyMulFloatInt x n = .ok (fpRoundN (x * n)) := by
  have hnq : (0 : ℚ) ≤ (n : ℚ) := by exact_mod_cast hn0
  have hnq1 : (n : ℚ) ≤ 255 := by exact_mod_cast hn1
  unfold pyMulFloatInt pyIntToFloat
  unfold pyFloat
  rw [fpRound_intCast hn0 (by omega)]
  rw [bind_ok]
  unfold pyMulFloat pyFloat
  rw [fpRound_eq_some (mul_nonneg hx0 hnq)
    (by calc x * (n : ℚ) ≤ 1 * 255 := mul_le_mul hx1 hnq1 hnq (by norm_num)
          _ < 2 ^ (1023 : ℤ) := by norm_num)]

theorem pyAddFloat_ok {x y : ℚ} (hx : 0 ≤ x) (hy : 0 ≤ y) (hb : x + y < 2 ^ (1023 : ℤ)) :
    pyAddFloat x y = .ok (fpRoundN (x + y)) := by
  unfold pyAddFloat pyFloat
  rw [fpRound_eq_some (add_nonneg hx hy) hb]

/-- The exact binary64 value of `0.21*r + 0.72*g + 0.07*b` as evaluated by the
source (every intermediate result correctly rounded), for channels that have
already passed validation. -/
def grayVal (r g b : ℤ) : ℚ :=
  fpRoundN (fpRoundN (fpRoundN (lit021 * r) + fpRoundN (lit072 * g)) + fpRoundN (lit007 * b))

theorem gray_ok {r g b : ℤ} (hr0 : 0 ≤ r) (hr1 : r ≤ 255) (hg0 : 0 ≤ g) (hg1 : g ≤ 255)
    (hb0 : 0 ≤ b) (hb1 : b ≤ 255) :
    rgb_to_grayscale r g b = .ok (pyTrunc (grayVal r g b)) := by
  unfold rgb_to_grayscale
  rw [if_neg (not_not_intro ⟨hr0, hr1⟩), if_neg (not_not_intro ⟨hg0, hg1⟩),
    if_neg (not_not_intro ⟨hb0, hb1⟩)]
  rw [pyMulFloatInt_ok (le_of_lt lit021_bounds.1) lit021_bounds.2 hr0 hr1, bind_ok]
  rw [pyMulFloatInt_ok (le_of_lt lit072_bounds.1) lit072_bounds.2 hg0 hg1, bind_ok]
  have ht1 : fpRoundN (lit021 * r) ≤ ((255 : ℤ) : ℚ) := by
    apply fpRoundN_le_anchor _ (by omega) (by omega)
    calc lit021 * (r : ℚ) ≤ 1 * 255 :=
          mul_le_mul lit021_bounds.2 (by exact_mod_cast hr1) (by exact_mod_cast hr0)
            (by norm_num)
      _ = ((255 : ℤ) : ℚ) := by norm_num
  have ht2 : fpRoundN (lit072 * g) ≤ ((255 : ℤ) : ℚ) := by
    apply fpRoundN_le_anchor _ (by omega) (by omega)
    calc lit072 * (g : ℚ) ≤ 1 * 255 :=
          mul_le_mul lit072_bounds.2 (by exact_mod_cast hg1) (by exact_mod_cast hg0)
            (by norm_num)
      _ = ((255 : ℤ) : ℚ) := by norm_num
  have ht3 : fpRoundN (lit007 * b) ≤ ((255 : ℤ) : ℚ) := by
    apply fpRoundN_le_anchor _ (by omega) (by omega)
    calc lit007 * (b : ℚ) ≤ 1 * 255 :=
          mul_le_mul lit007_bounds.2 (by exact_mod_cast hb1) (by exact_mod_cast hb0)
            (by norm_num)
      _ = ((255 : ℤ) : ℚ) := by norm_num
  rw [pyAddFloat_ok (fpRoundN_nonneg _) (fpRoundN_nonneg _)
    (by
      have h255 : ((255 : ℤ) : ℚ) = 255 := by norm_num
      rw [h255] at ht1 ht2
      calc fpRoundN (lit021 * r) + fpRoundN (lit072 * g) ≤ 255 + 255 := add_le_add ht1 ht2
        _ < 2 ^ (1023 : ℤ) := by norm_num), bind_ok]
  rw [pyMulFloatInt_ok (le_of_lt lit007_bounds.1) lit007_bounds.2 hb0 hb1, bind_ok]
  have hs1 : fpRoundN (fpRoundN (lit021 * r) + fpRoundN (lit072 * g)) ≤ ((510 : ℤ) : ℚ) := by
    apply fpRoundN_le_anchor _ (by omega) (by omega)
    have h255 : ((255 : ℤ) : ℚ) = 255 := by norm_num
    rw [h255] at ht1 ht2
    have : fpRoundN (lit021 * r) + fpRoundN (lit072 * g) ≤ 255 + 255 := add_le_add ht1 ht2
    calc fpRoundN (lit021 * r) + fpRoundN (lit072 * g) ≤ 255 + 255 := this
      _ = ((510 : ℤ) : ℚ) := by norm_num
  rw [pyAddFloat_ok (fpRoundN_nonneg _) (fpRoundN_nonneg _)
    (by
      have h510 : ((510 : ℤ) : ℚ) = 510 := by norm_num
      have h255 : ((255 : ℤ) : ℚ) = 255 := by norm_num
      rw [h510] at hs1
      rw [h255] at ht3
      calc fpRoundN (fpRoundN (lit021 * r) + fpRoundN (lit072 * g)) + fpRoundN (lit007 * b)
          ≤ 510 + 255 := add_le_add hs1 ht3
        _ < 2 ^ (1023 : ℤ) := by norm_num), bind_ok]
  rfl

theorem grayVal_nonneg (r g b : ℤ) : 0 ≤ grayVal r g b := fpRoundN_nonneg _

theorem grayVal_mono {r g b r' g' b' : ℤ} (hr : r ≤ r') (hg : g ≤ g') (hb : b ≤ b') :
    grayVal r g b ≤ grayVal r' g' b' := by
  have h1 : lit021 * (r : ℚ) ≤ lit021 * (r' : ℚ) :=
    mul_le_mul_of_nonneg_left (by exact_mod_cast hr) (le_of_lt lit021_bounds.1)
  have h2 : lit072 * (g : ℚ) ≤ lit072 * (g' : ℚ) :=
    mul_le_mul_of_nonneg_left (by exact_mod_cast hg) (le_of_lt lit072_bounds.1)
  have h3 : lit007 * (b : ℚ) ≤ lit007 * (b' : ℚ) :=
    mul_le_mul_of_nonneg_left (by exact_mod_cast hb) (le_of_lt lit007_bounds.1)
  unfold grayVal
  exact fpRoundN_mono (add_le_add
    (fpRoundN_mono (add_le_add (fpRoundN_mono h1) (fpRoundN_mono h2)))
    (fpRoundN_mono h3))

theorem pyTrunc_eq_floor {x : ℚ} (h : 0 ≤ x) : pyTrunc x = ⌊x⌋ := by
  unfold pyTrunc
  rw [if_neg (not_lt.mpr h)]

theorem pyTrunc_nonneg {x : ℚ} (h : 0 ≤ x) : 0 ≤ pyTrunc x := by
  rw [pyTrunc_eq_floor h]
  exact Int.floor_nonneg.mpr h

theorem pyTrunc_le_of_le {x : ℚ} {N : ℤ} (h0 : 0 ≤ x) (h : x ≤ (N : ℚ)) : pyTrunc x ≤ N := by
  rw [pyTrunc_eq_floor h0]
  have := Int.floor_mono h
  rwa [Int.floor_intCast] at this

theorem int_le_pyTrunc {x : ℚ} {N : ℤ} (h0 : 0 ≤ x) (h : (N : ℚ) ≤ x) : N ≤ pyTrunc x := by
  rw [pyTrunc_eq_floor h0]
  exact Int.le_floor.mpr h

theorem grayVal_255 : grayVal 255 255 255 = 8972014882652159/35184372088832 := by
  have hA : fpRoundN (lit021 * ((255 : ℤ) : ℚ)) = 3768246250713907/70368744177664 := by
    rw [lit021_eq, show (7566047373982433/36028797018963968 : ℚ) * ((255 : ℤ) : ℚ) =
      1929342080365520415/36028797018963968 by norm_num]
    exact fpRoundN_eval (by norm_num)
      (by norm_num : (2 : ℚ) ^ (5 : ℤ) ≤ 1929342080365520415/36028797018963968)
      (by norm_num : (1929342080365520415/36028797018963968 : ℚ) < 2 ^ ((5 : ℤ) + 1))
      (by decide : (-47 : ℤ) = max (5 - 52) (-1074))
      (by norm_num : (1929342080365520415/36028797018963968 : ℚ) / 2 ^ (-47 : ℤ) =
        1929342080365520415/256)
      (rhe_eq_of_lt_half (by norm_num) (by norm_num))
      (by norm_num : ((7536492501427814 : ℤ) : ℚ) * 2 ^ (-47 : ℤ) =
        3768246250713907/70368744177664)
  have hB : fpRoundN (lit072 * ((255 : ℤ) : ℚ)) = 6459850715509555/35184372088832 := by
    rw [lit072_eq, show (3242591731706757/4503599627370496 : ℚ) * ((255 : ℤ) : ℚ) =
      826860891585223035/4503599627370496 by norm_num]
    exact fpRoundN_eval (by norm_num)
      (by norm_num : (2 : ℚ) ^ (7 : ℤ) ≤ 826860891585223035/4503599627370496)
      (by norm_num : (826860891585223035/4503599627370496 : ℚ) < 2 ^ ((7 : ℤ) + 1))
      (by decide : (-45 : ℤ) = max (7 - 52) (-1074))
      (by norm_num : (826860891585223035/4503599627370496 : ℚ) / 2 ^ (-45 : ℤ) =
        826860891585223035/128)
      (show rhe (826860891585223035/128) = 6459850715509555 by
        rw [show (6459850715509555 : ℤ) = 6459850715509554 + 1 by norm_num]
        exact rhe_eq_of_half_lt (by norm_num) (by norm_num))
      (by norm_num : ((6459850715509555 : ℤ) : ℚ) * 2 ^ (-45 : ℤ) =
        6459850715509555/35184372088832)
  have hC : fpRoundN (lit007 * ((255 : ℤ) : ℚ)) = 2512164167142605/140737488355328 := by
    rw [lit007_eq, show (1261007895663739/18014398509481984 : ℚ) * ((255 : ℤ) : ℚ) =
      321557013394253445/18014398509481984 by norm_num]
    exact fpRoundN_eval (by norm_num)
      (by norm_num : (2 : ℚ) ^ (4 : ℤ) ≤ 321557013394253445/18014398509481984)
      (by norm_num : (321557013394253445/18014398509481984 : ℚ) < 2 ^ ((4 : ℤ) + 1))
      (by decide : (-48 : ℤ) = max (4 - 52) (-1074))
      (by norm_num : (321557013394253445/18014398509481984 : ℚ) / 2 ^ (-48 : ℤ) =
        321557013394253445/64)
      (rhe_eq_of_lt_half (by norm_num) (by norm_num))
      (by norm_num : ((5024328334285210 : ℤ) : ℚ) * 2 ^ (-48 : ℤ) =
        2512164167142605/140737488355328)
  have hS1 : fpRoundN (3768246250713907/70368744177664 + 6459850715509555/35184372088832) =
      2085993460216627/8796093022208 := by
    rw [show (3768246250713907/70368744177664 + 6459850715509555/35184372088832 : ℚ) =
      16687947681733017/70368744177664 by norm_num]
    exact fpRoundN_eval (by norm_num)
      (by norm_num : (2 : ℚ) ^ (7 : ℤ) ≤ 16687947681733017/70368744177664)
      (by norm_num : (16687947681733017/70368744177664 : ℚ) < 2 ^ ((7 : ℤ) + 1))
      (by decide : (-45 : ℤ) = max (7 - 52) (-1074))
      (by norm_num : (16687947681733017/70368744177664 : ℚ) / 2 ^ (-45 : ℤ) =
        16687947681733017/2)
      (show rhe (16687947681733017/2) = 8343973840866508 by
        rw [show (16687947681733017/2 : ℚ) = ((8343973840866508 : ℤ) : ℚ) + 1/2 by norm_num]
        exact rhe_tie_even (by decide))
      (by norm_num : ((8343973840866508 : ℤ) : ℚ) * 2 ^ (-45 : ℤ) =
        2085993460216627/8796093022208)
  have hS2 : fpRoundN (2085993460216627/8796093022208 + 2512164167142605/140737488355328) =
      8972014882652159/35184372088832 := by
    rw [show (2085993460216627/8796093022208 + 2512164167142605/140737488355328 : ℚ) =
      35888059530608637/140737488355328 by norm_num]
    exact fpRoundN_eval (by norm_num)
      (by norm_num : (2 : ℚ) ^ (7 : ℤ) ≤ 35888059530608637/140737488355328)
      (by norm_num : (35888059530608637/140737488355328 : ℚ) < 2 ^ ((7 : ℤ) + 1))
      (by decide : (-45 : ℤ) = max (7 - 52) (-1074))
      (by norm_num : (35888059530608637/140737488355328 : ℚ) / 2 ^ (-45 : ℤ) =
        35888059530608637/4)
      (rhe_eq_of_lt_half (by norm_num) (by norm_num))
      (by norm_num : ((8972014882652159 : ℤ) : ℚ) * 2 ^ (-45 : ℤ) =
        8972014882652159/35184372088832)
  unfold grayVal
  rw [hA, hB, hS1, hC, hS2]

theorem bind_error {α β : Type} (e : PyErr) (f : α → Except PyErr β) :
    (Except.error e : Except PyErr α) >>= f = .error e := rfl

theorem pyFloat_ok_of {q r : ℚ} (h : fpRound q = some r) : pyFloat q = .ok r := by
  unfold pyFloat
  rw [h]

theorem pyDivIntInt_eval {a b : ℤ} {r : ℚ} (h : fpRound ((a : ℚ) / (b : ℚ)) = some r) :
    pyDivIntInt a b = .ok r :=
  pyFloat_ok_of h

theorem pyMulIntFloat_eval {n : ℤ} {x nf p : ℚ} (hconv : fpRound ((n : ℤ) : ℚ) = some nf)
    (hmul : fpRound (nf * x) = some p) : pyMulIntFloat n x = .ok p := by
  unfold pyMulIntFloat pyIntToFloat
  rw [pyFloat_ok_of hconv, bind_ok]
  exact pyFloat_ok_of hmul

theorem fp_one : fpRound (1 : ℚ) = some 1 := by
  rw [show (1 : ℚ) = ((1 : ℤ) : ℚ) by norm_num]
  exact fpRound_intCast (by omega) (by omega)

theorem fpRoundN_rel {q : ℚ} (h : (2 : ℚ) ^ (-1022 : ℤ) ≤ q) :
    fpRoundN q ≤ q * (1 + 2 ^ (-53 : ℤ)) ∧ q * (1 - 2 ^ (-53 : ℤ)) ≤ fpRoundN q := by
  have hq : 0 < q := lt_of_lt_of_le (two_zpow_pos _) h
  unfold fpRoundN
  rw [if_neg (not_le.mpr hq)]
  exact ⟨fpRoundPos_le_rel h, fpRoundPos_ge_rel h⟩

theorem fpRoundN_one : fpRoundN 1 = 1 := by
  have h := fpRoundN_intCast (show (0 : ℤ) ≤ 1 by omega) (show (1 : ℤ) < 2 ^ 53 by omega)
  rwa [Int.cast_one] at h

theorem pyMulIntFloat_ok {n : ℤ} {x : ℚ} (hn0 : 0 ≤ n) (hn1 : n < 2 ^ 53) (hx : 0 ≤ x)
    (hb : (n : ℚ) * x < 2 ^ (1023 : ℤ)) :
    pyMulIntFloat n x = .ok (fpRoundN ((n : ℚ) * x)) := by
  unfold pyMulIntFloat pyIntToFloat pyFloat
  rw [fpRound_intCast hn0 hn1, bind_ok]
  unfold pyMulFloat pyFloat
  rw [fpRound_eq_some (mul_nonneg (by exact_mod_cast hn0) hx) hb]

theorem pyFloat_ok_nonneg {q s : ℚ} (h : pyFloat q = .ok s) (hq : 0 ≤ q) : 0 ≤ s := by
  unfold pyFloat at h
  cases hfp : fpRound q with
  | none =>
    rw [hfp] at h
    exact absurd h (by simp)
  | some r =>
    rw [hfp] at h
    have hrs : r = s := by
      have := h
      simp only [Except.ok.injEq] at this
      exact this
    rw [← hrs]
    exact fpRound_nonneg hq hfp

theorem pyMulIntFloat_ok_nonneg {n : ℤ} {x : ℚ} {y : ℚ} (h : pyMulIntFloat n x = .ok y)
    (hn : 0 ≤ n) (hx : 0 ≤ x) : 0 ≤ y := by
  unfold pyMulIntFloat at h
  cases hcv : pyIntToFloat n with
  | error e =>
    rw [hcv, bind_error] at h
    exact absurd h (by simp)
  | ok nf =>
    rw [hcv, bind_ok] at h
    have hnf : 0 ≤ nf := pyFloat_ok_nonneg hcv (by exact_mod_cast hn)
    exact pyFloat_ok_nonneg h (mul_nonneg hnf hx)

theorem resize_scaling {w h m : ℤ} (hw : 0 < w) (hh : 0 < h) (hm : 0 < m)
    (hbr : ¬(w ≤ m ∧ h ≤ m)) :
    resize_dimensions w h m = (do
      let scale ← if h < w then pyDivIntInt m w else pyDivIntInt m h
      let a ← pyMulIntFloat w scale
      let b ← pyMulIntFloat h scale
      .ok (pyTrunc a, pyTrunc b)) := by
  unfold resize_dimensions
  rw [if_neg (by omega), if_neg hbr]

theorem fpRoundPos_err (q : ℚ) :
    q - 2 ^ kexp q / 2 ≤ fpRoundPos q ∧ fpRoundPos q ≤ q + 2 ^ kexp q / 2 := by
  constructor
  · have step1 : (q / 2 ^ kexp q - 1/2) * 2 ^ kexp q ≤ fpRoundPos q :=
      mul_le_mul_of_nonneg_right (le_rhe _) (le_of_lt (two_zpow_pos _))
    have step2 : (q / 2 ^ kexp q - 1/2) * 2 ^ kexp q = q - 2 ^ kexp q / 2 := by
      rw [sub_mul, div_mul_cancel₀ _ (two_zpow_ne_zero _)]
      ring
    exact step2 ▸ step1
  · have step1 : fpRoundPos q ≤ (q / 2 ^ kexp q + 1/2) * 2 ^ kexp q :=
      mul_le_mul_of_nonneg_right (rhe_le _) (le_of_lt (two_zpow_pos _))
    have step2 : (q / 2 ^ kexp q + 1/2) * 2 ^ kexp q = q + 2 ^ kexp q / 2 := by
      rw [add_mul, div_mul_cancel₀ _ (two_zpow_ne_zero _)]
      ring
    exact step2 ▸ step1

theorem fpRoundN_half_err {q : ℚ} (h0 : 0 < q) (h53 : q < 2 ^ (53 : ℤ)) :
    q - 1/2 ≤ fpRoundN q ∧ fpRoundN q ≤ q + 1/2 := by
  have hbe : bexp q ≤ 52 := by
    have := bexp_le_of_lt h0 h53
    omega
  have hk : kexp q ≤ 0 := max_le (by omega) (by omega)
  have hpow : (2 : ℚ) ^ kexp q ≤ 1 := by
    have := two_zpow_le_two_zpow hk
    rwa [zpow_zero] at this
  have herr := fpRoundPos_err q
  have hN : fpRoundN q = fpRoundPos q := by
    unfold fpRoundN
    rw [if_neg (not_le.mpr h0)]
  rw [hN]
  exact ⟨by linarith [herr.1], by linarith [herr.2]⟩

theorem scale_core {d c m : ℤ} (hc : 0 < c) (hm : 0 < m)
    (hmd : m < d) (hd53 : d < 2 ^ 53) (hcd : c ≤ d) :
    pyDivIntInt m d = .ok (fpRoundN ((m : ℚ) / (d : ℚ))) ∧
    pyMulIntFloat d (fpRoundN ((m : ℚ) / (d : ℚ))) =
      .ok (fpRoundN ((d : ℚ) * fpRoundN ((m : ℚ) / (d : ℚ)))) ∧
    pyMulIntFloat c (fpRoundN ((m : ℚ) / (d : ℚ))) =
      .ok (fpRoundN ((c : ℚ) * fpRoundN ((m : ℚ) / (d : ℚ)))) ∧
    (pyTrunc (fpRoundN ((d : ℚ) * fpRoundN ((m : ℚ) / (d : ℚ)))) = m ∨
      pyTrunc (fpRoundN ((d : ℚ) * fpRoundN ((m : ℚ) / (d : ℚ)))) = m - 1) ∧
    pyTrunc (fpRoundN ((c : ℚ) * fpRoundN ((m : ℚ) / (d : ℚ)))) ≤ m := by
  have hd : 0 < d := lt_trans hm hmd
  have hdq : (0 : ℚ) < (d : ℚ) := by exact_mod_cast hd
  have hmq : (0 : ℚ) < (m : ℚ) := by exact_mod_cast hm
  have hq0pos : 0 < (m : ℚ) / (d : ℚ) := div_pos hmq hdq
  have hq0lt1 : (m : ℚ) / (d : ℚ) < 1 := (div_lt_one hdq).mpr (by exact_mod_cast hmd)
  have hdlt : (d : ℚ) < 2 ^ (53 : ℤ) := by
    calc (d : ℚ) < ((2 ^ 53 : ℤ) : ℚ) := by exact_mod_cast hd53
      _ = 2 ^ (53 : ℤ) := by norm_num
  have he_ub : bexp ((m : ℚ) / (d : ℚ)) ≤ -1 := by
    have h1 : (m : ℚ) / (d : ℚ) < 2 ^ (0 : ℤ) := by
      rw [zpow_zero]
      exact hq0lt1
    have h2 := bexp_le_of_lt hq0pos h1
    omega
  have he_lb : (-53 : ℤ) ≤ bexp ((m : ℚ) / (d : ℚ)) := by
    apply le_bexp_of_le
    rw [le_div_iff₀ hdq]
    calc (2 : ℚ) ^ (-53 : ℤ) * (d : ℚ) ≤ 2 ^ (-53 : ℤ) * 2 ^ (53 : ℤ) :=
          mul_le_mul_of_nonneg_left (le_of_lt hdlt) (le_of_lt (two_zpow_pos _))
      _ = 1 := by
          rw [← zpow_add₀ (by norm_num : (2 : ℚ) ≠ 0)]
          norm_num
      _ ≤ (m : ℚ) := by exact_mod_cast hm
  have hknorm : kexp ((m : ℚ) / (d : ℚ)) = bexp ((m : ℚ) / (d : ℚ)) - 52 :=
    kexp_eq_normal (by omega)
  have hdiv : pyDivIntInt m d = .ok (fpRoundN ((m : ℚ) / (d : ℚ))) := by
    unfold pyDivIntInt pyFloat
    rw [fpRound_eq_some (le_of_lt hq0pos) (lt_trans hq0lt1 (by norm_num))]
  set s := fpRoundN ((m : ℚ) / (d : ℚ)) with hsdef
  have hs0 : 0 ≤ s := fpRoundN_nonneg _
  have hsN : s = fpRoundPos ((m : ℚ) / (d : ℚ)) := by
    rw [hsdef]
    unfold fpRoundN
    rw [if_neg (not_le.mpr hq0pos)]
  have herr := fpRoundPos_err ((m : ℚ) / (d : ℚ))
  have hgrid : (2 : ℚ) ^ kexp ((m : ℚ) / (d : ℚ)) / 2 =
      2 ^ (bexp ((m : ℚ) / (d : ℚ)) - 53) := by
    rw [hknorm, div_eq_mul_inv, ← zpow_neg_one,
      ← zpow_add₀ (by norm_num : (2 : ℚ) ≠ 0)]
    congr 1
    ring
  have hdq0 : (d : ℚ) * ((m : ℚ) / (d : ℚ)) = (m : ℚ) := by field_simp
  have hhalf : (d : ℚ) * 2 ^ (bexp ((m : ℚ) / (d : ℚ)) - 53) < 1/2 := by
    calc (d : ℚ) * 2 ^ (bexp ((m : ℚ) / (d : ℚ)) - 53)
        < 2 ^ (53 : ℤ) * 2 ^ (bexp ((m : ℚ) / (d : ℚ)) - 53) :=
          mul_lt_mul_of_pos_right hdlt (two_zpow_pos _)
      _ = 2 ^ bexp ((m : ℚ) / (d : ℚ)) := by
          rw [← zpow_add₀ (by norm_num : (2 : ℚ) ≠ 0)]
          congr 1
          ring
      _ ≤ 2 ^ (-1 : ℤ) := two_zpow_le_two_zpow he_ub
      _ = 1/2 := by norm_num
  have hub2 : (d : ℚ) * s < (m : ℚ) + 1/2 := by
    have h1 : s ≤ (m : ℚ) / (d : ℚ) + 2 ^ (bexp ((m : ℚ) / (d : ℚ)) - 53) := by
      rw [hsN, ← hgrid]
      exact herr.2
    calc (d : ℚ) * s
        ≤ (d : ℚ) * ((m : ℚ) / (d : ℚ) + 2 ^ (bexp ((m : ℚ) / (d : ℚ)) - 53)) :=
          mul_le_mul_of_nonneg_left h1 (le_of_lt hdq)
      _ = (d : ℚ) * ((m : ℚ) / (d : ℚ)) +
          (d : ℚ) * 2 ^ (bexp ((m : ℚ) / (d : ℚ)) - 53) := by ring
      _ = (m : ℚ) + (d : ℚ) * 2 ^ (bexp ((m : ℚ) / (d : ℚ)) - 53) := by rw [hdq0]
      _ < (m : ℚ) + 1/2 := by linarith
  have hlb2 : (m : ℚ) - 1/2 < (d : ℚ) * s := by
    have h1 : (m : ℚ) / (d : ℚ) - 2 ^ (bexp ((m : ℚ) / (d : ℚ)) - 53) ≤ s := by
      rw [hsN, ← hgrid]
      exact herr.1
    calc (m : ℚ) - 1/2
        < (m : ℚ) - (d : ℚ) * 2 ^ (bexp ((m : ℚ) / (d : ℚ)) - 53) := by linarith
      _ = (d : ℚ) * ((m : ℚ) / (d : ℚ)) -
          (d : ℚ) * 2 ^ (bexp ((m : ℚ) / (d : ℚ)) - 53) := by rw [hdq0]
      _ = (d : ℚ) * ((m : ℚ) / (d : ℚ) - 2 ^ (bexp ((m : ℚ) / (d : ℚ)) - 53)) := by
          ring
      _ ≤ (d : ℚ) * s := mul_le_mul_of_nonneg_left h1 (le_of_lt hdq)
  have hm1 : (1 : ℚ) ≤ (m : ℚ) := by exact_mod_cast hm
  have hmd1 : (m : ℚ) + 1 ≤ (d : ℚ) := by exact_mod_cast hmd
  have hds_pos : 0 < (d : ℚ) * s := by linarith
  have hds_lt53 : (d : ℚ) * s < 2 ^ (53 : ℤ) := by linarith
  obtain ⟨hTlb, hTub⟩ := fpRoundN_half_err hds_pos hds_lt53
  have hT_lt : fpRoundN ((d : ℚ) * s) < (m : ℚ) + 1 := by linarith
  have hT_gt : (m : ℚ) - 1 < fpRoundN ((d : ℚ) * s) := by linarith
  have h53lt : (2 : ℚ) ^ (53 : ℤ) < 2 ^ (1023 : ℤ) := two_zpow_lt_two_zpow (by omega)
  have hokd : pyMulIntFloat d s = .ok (fpRoundN ((d : ℚ) * s)) :=
    pyMulIntFloat_ok (le_of_lt hd) hd53 hs0 (lt_trans hds_lt53 h53lt)
  have hcs_le : (c : ℚ) * s ≤ (d : ℚ) * s := by
    apply mul_le_mul_of_nonneg_right _ hs0
    exact_mod_cast hcd
  have hokc : pyMulIntFloat c s = .ok (fpRoundN ((c : ℚ) * s)) :=
    pyMulIntFloat_ok (le_of_lt hc) (by omega) hs0
      (lt_of_le_of_lt hcs_le (lt_trans hds_lt53 h53lt))
  have hfds0 : 0 ≤ fpRoundN ((d : ℚ) * s) := fpRoundN_nonneg _
  have htr : pyTrunc (fpRoundN ((d : ℚ) * s)) = m ∨
      pyTrunc (fpRoundN ((d : ℚ) * s)) = m - 1 := by
    rw [pyTrunc_eq_floor hfds0]
    have hup : ⌊fpRoundN ((d : ℚ) * s)⌋ < m + 1 := by
      apply Int.floor_lt.mpr
      push_cast
      linarith
    have hdown : m - 1 ≤ ⌊fpRoundN ((d : ℚ) * s)⌋ := by
      apply Int.le_floor.mpr
      push_cast
      linarith
    omega
  have hc_ub : pyTrunc (fpRoundN ((c : ℚ) * s)) ≤ m := by
    have hfcs0 : 0 ≤ fpRoundN ((c : ℚ) * s) := fpRoundN_nonneg _
    rw [pyTrunc_eq_floor hfcs0]
    have hlt : fpRoundN ((c : ℚ) * s) < (m : ℚ) + 1 :=
      lt_of_le_of_lt (fpRoundN_mono hcs_le) hT_lt
    have hfl : ⌊fpRoundN ((c : ℚ) * s)⌋ < m + 1 := by
      apply Int.floor_lt.mpr
      push_cast
      linarith
    omega
  exact ⟨hdiv, hokd, hokc, htr, hc_ub⟩

/-- Modelled from the claim text of C1: the resize policy exactly as the claim
states it — no-op fit when both dimensions already fit, otherwise
`scale = max_size / width` when `width > height` (a `width == height` tie uses
the height branch) and result `(int(width*scale), int(height*scale))` with
truncation toward zero — with the float expressions read in Python binary64
semantics.  The claim quantifies over positive inputs only, so the validation
guard is not part of this formula. -/
def resizeSpecC1 (width height max_size : ℤ) : Except PyErr (ℤ × ℤ) :=
  if width ≤ max_size ∧ height ≤ max_size then .ok (width, height)
  else do
    let scale ← if height < width then pyDivIntInt max_size width
      else pyDivIntInt max_size height
    let a ← pyMulIntFloat width scale
    let b ← pyMulIntFloat height scale
    .ok (pyTrunc a, pyTrunc b)

/-- Modelled from the claim text of C2: `int(0.21*r + 0.72*g + 0.07*b)` with
the fixed literal weights, evaluated left to right in binary64, and the
truncating (toward-zero) integer conversion of the result. -/
def graySpecC2 (r g b : ℤ) : Except PyErr ℤ := do
  let t1 ← pyMulFloatInt lit021 r
  let t2 ← pyMulFloatInt lit072 g
  let s1 ← pyAddFloat t1 t2
  let t3 ← pyMulFloatInt lit007 b
  let s2 ← pyAddFloat s1 t3
  .ok (pyTrunc s2)

/-- Claim C1: for all positive `width`, `height`, `max_size`,
`resize_dimensions` returns `(width, height)` unchanged when both fit within
`max_size`, and otherwise computes `scale = max_size / width` when
`width > height` (a tie goes to the height branch) and returns
`(int(width * scale), int(height * scale))` with truncation toward zero —
i.e. it agrees everywhere with the claim's policy formula `resizeSpecC1`. -/
theorem C1_resize_formula (width height max_size : ℤ) (hw : 0 < width) (hh : 0 < height)
    (hm : 0 < max_size) :
    resize_dimensions width height max_size = resizeSpecC1 width height max_size := by
  unfold resize_dimensions resizeSpecC1
  rw [if_neg (by omega)]

theorem C1_witness : 0 < (2000 : ℤ) ∧ 0 < (1000 : ℤ) ∧
    resize_dimensions 2000 1000 1000 = resizeSpecC1 2000 1000 1000 :=
  ⟨by omega, by omega, C1_resize_formula 2000 1000 1000 (by omega) (by omega) (by omega)⟩

/-- Claim C2: for in-range channels, `rgb_to_grayscale` returns exactly
`int(0.21*r + 0.72*g + 0.07*b)` — the truncating integer conversion of the
binary64 weighted sum with the fixed weights, as given by `graySpecC2`. -/
theorem C2_gray_formula (r g b : ℤ) (hr0 : 0 ≤ r) (hr1 : r ≤ 255) (hg0 : 0 ≤ g)
    (hg1 : g ≤ 255) (hb0 : 0 ≤ b) (hb1 : b ≤ 255) :
    rgb_to_grayscale r g b = graySpecC2 r g b := by
  unfold rgb_to_grayscale graySpecC2
  rw [if_neg (not_not_intro ⟨hr0, hr1⟩), if_neg (not_not_intro ⟨hg0, hg1⟩),
    if_neg (not_not_intro ⟨hb0, hb1⟩)]

theorem C2_witness : (0 : ℤ) ≤ 255 ∧
    rgb_to_grayscale 255 255 255 = graySpecC2 255 255 255 :=
  ⟨by omega, C2_gray_formula 255 255 255 (by omega) (by omega) (by omega) (by omega)
    (by omega) (by omega)⟩

/-- Claim C3: calculate_aspect_ratio raises `InvalidArgument` (a
`ValueError`) exactly when `width ≤ 0` or `height ≤ 0` — the division is never
reached in that case — and on positive inputs it returns the Python float
value of `width / height`, i.e. the binary64 division `pyDivIntInt`. -/
theorem C3_aspect_contract (width height : ℤ) :
    ((∃ msg, calculate_aspect_ratio width height = .error (.valueError msg)) ↔
      width ≤ 0 ∨ height ≤ 0) ∧
    (0 < width → 0 < height →
      calculate_aspect_ratio width height = pyDivIntInt width height) := by
  constructor
  · constructor
    · rintro ⟨msg, hmsg⟩
      by_contra hcon
      push_neg at hcon
      unfold calculate_aspect_ratio at hmsg
      rw [if_neg (by omega)] at hmsg
      unfold pyDivIntInt pyFloat at hmsg
      cases hfp : fpRound ((width : ℚ) / (height : ℚ)) with
      | some r =>
        rw [hfp] at hmsg
        exact absurd hmsg (by simp)
      | none =>
        rw [hfp] at hmsg
        simp only [Except.error.injEq] at hmsg
        exact PyErr.noConfusion hmsg
    · intro hor
      refine ⟨"Width and height must be positive integers", ?_⟩
      unfold calculate_aspect_ratio
      rw [if_pos hor]
  · intro hw hh
    unfold calculate_aspect_ratio
    rw [if_neg (by omega)]

theorem C3_witness : calculate_aspect_ratio 1920 1080 = pyDivIntInt 1920 1080 :=
  (C3_aspect_contract 1920 1080).2 (by omega) (by omega)

/-- Claim C4: `is_valid_resolution` returns exactly the boolean
`width ≥ min_width ∧ height ≥ min_height` for all integer inputs (including
zero and negative ones); being a total `Bool`-valued comparison it has no
error path at all (the source defaults `min_width` and `min_height` to 1). -/
theorem C4_resolution_bool (width height min_width min_height : ℤ) :
    is_valid_resolution width height min_width min_height = true ↔
      (width ≥ min_width ∧ height ≥ min_height) := by
  unfold is_valid_resolution
  simp

theorem C4_witness : is_valid_resolution 800 600 1920 1080 = true ↔
    ((800 : ℤ) ≥ 1920 ∧ (600 : ℤ) ≥ 1080) :=
  C4_resolution_bool 800 600 1920 1080

/-- Claim C7: `rgb_to_grayscale` fails with `InvalidArgument` exactly on an
out-of-range channel, naming the first violating channel in the fixed order
r, g, b, before any computation; when all three are in range it returns a
value. -/
theorem C7_gray_validation (r g b : ℤ) :
    (¬(0 ≤ r ∧ r ≤ 255) →
      rgb_to_grayscale r g b = .error (.valueError "r must be between 0 and 255")) ∧
    ((0 ≤ r ∧ r ≤ 255) → ¬(0 ≤ g ∧ g ≤ 255) →
      rgb_to_grayscale r g b = .error (.valueError "g must be between 0 and 255")) ∧
    ((0 ≤ r ∧ r ≤ 255) → (0 ≤ g ∧ g ≤ 255) → ¬(0 ≤ b ∧ b ≤ 255) →
      rgb_to_grayscale r g b = .error (.valueError "b must be between 0 and 255")) ∧
    ((0 ≤ r ∧ r ≤ 255) → (0 ≤ g ∧ g ≤ 255) → (0 ≤ b ∧ b ≤ 255) →
      ∃ v, rgb_to_grayscale r g b = .ok v) := by
  refine ⟨?_, ?_, ?_, ?_⟩
  · intro hbad
    unfold rgb_to_grayscale
    rw [if_pos hbad]
  · intro hr hbad
    unfold rgb_to_grayscale
    rw [if_neg (not_not_intro hr), if_pos hbad]
  · intro hr hg hbad
    unfold rgb_to_grayscale
    rw [if_neg (not_not_intro hr), if_neg (not_not_intro hg), if_pos hbad]
  · intro hr hg hb
    exact ⟨_, gray_ok hr.1 hr.2 hg.1 hg.2 hb.1 hb.2⟩

theorem C7_witness :
    rgb_to_grayscale 256 0 0 = .error (.valueError "r must be between 0 and 255") :=
  (C7_gray_validation 256 0 0).1 (by omega)

/-- Claim C6: for all in-range channels the grayscale output lies in
[0, 254]; in particular `rgb_to_grayscale 255 255 255 = 254` — truncation of
the binary64 sum `254.99999999999997`, not 255, with no clamping or
rounding up. -/
theorem C6_gray_range :
    (∀ r g b : ℤ, 0 ≤ r → r ≤ 255 → 0 ≤ g → g ≤ 255 → 0 ≤ b → b ≤ 255 →
      ∃ v, rgb_to_grayscale r g b = .ok v ∧ 0 ≤ v ∧ v ≤ 254) ∧
    rgb_to_grayscale 255 255 255 = .ok 254 := by
  have hwhite : rgb_to_grayscale 255 255 255 = .ok 254 := by
    rw [gray_ok (by omega) (by omega) (by omega) (by omega) (by omega) (by omega),
      grayVal_255]
    have hfl : pyTrunc (8972014882652159/35184372088832 : ℚ) = 254 := by
      rw [pyTrunc_eq_floor (by norm_num)]
      exact Int.floor_eq_iff.mpr ⟨by norm_num, by norm_num⟩
    rw [hfl]
  refine ⟨?_, hwhite⟩
  intro r g b hr0 hr1 hg0 hg1 hb0 hb1
  refine ⟨pyTrunc (grayVal r g b), gray_ok hr0 hr1 hg0 hg1 hb0 hb1,
    pyTrunc_nonneg (grayVal_nonneg r g b), ?_⟩
  have hmono : grayVal r g b ≤ grayVal 255 255 255 := grayVal_mono hr1 hg1 hb1
  rw [grayVal_255] at hmono
  rw [pyTrunc_eq_floor (grayVal_nonneg r g b)]
  have hlt : grayVal r g b < ((255 : ℤ) : ℚ) := by
    calc grayVal r g b ≤ 8972014882652159/35184372088832 := hmono
      _ < ((255 : ℤ) : ℚ) := by norm_num
  have := Int.floor_lt.mpr hlt
  omega

theorem C6_witness : ∃ v, rgb_to_grayscale 10 20 30 = .ok v ∧ 0 ≤ v ∧ v ≤ 254 :=
  C6_gray_range.1 10 20 30 (by omega) (by omega) (by omega) (by omega) (by omega) (by omega)

/-- Claim C10: `rgb_to_grayscale` is monotone nondecreasing in each channel
separately: raising only r, only g, or only b (within range) never decreases
the output. -/
theorem C10_gray_monotone :
    (∀ r r' g b : ℤ, 0 ≤ r → r ≤ r' → r' ≤ 255 → 0 ≤ g → g ≤ 255 → 0 ≤ b → b ≤ 255 →
      ∃ v v', rgb_to_grayscale r g b = .ok v ∧ rgb_to_grayscale r' g b = .ok v' ∧ v ≤ v') ∧
    (∀ r g g' b : ℤ, 0 ≤ r → r ≤ 255 → 0 ≤ g → g ≤ g' → g' ≤ 255 → 0 ≤ b → b ≤ 255 →
      ∃ v v', rgb_to_grayscale r g b = .ok v ∧ rgb_to_grayscale r g' b = .ok v' ∧ v ≤ v') ∧
    (∀ r g b b' : ℤ, 0 ≤ r → r ≤ 255 → 0 ≤ g → g ≤ 255 → 0 ≤ b → b ≤ b' → b' ≤ 255 →
      ∃ v v', rgb_to_grayscale r g b = .ok v ∧ rgb_to_grayscale r g b' = .ok v' ∧ v ≤ v') := by
  refine ⟨?_, ?_, ?_⟩
  · intro r r' g b hr0 hrr hr1 hg0 hg1 hb0 hb1
    refine ⟨pyTrunc (grayVal r g b), pyTrunc (grayVal r' g b),
      gray_ok hr0 (by omega) hg0 hg1 hb0 hb1,
      gray_ok (by omega) hr1 hg0 hg1 hb0 hb1, ?_⟩
    rw [pyTrunc_eq_floor (grayVal_nonneg r g b), pyTrunc_eq_floor (grayVal_nonneg r' g b)]
    exact Int.floor_mono (grayVal_mono hrr le_rfl le_rfl)
  · intro r g g' b hr0 hr1 hg0 hgg hg1 hb0 hb1
    refine ⟨pyTrunc (grayVal r g b), pyTrunc (grayVal r g' b),
      gray_ok hr0 hr1 hg0 (by omega) hb0 hb1,
      gray_ok hr0 hr1 (by omega) hg1 hb0 hb1, ?_⟩
    rw [pyTrunc_eq_floor (grayVal_nonneg r g b), pyTrunc_eq_floor (grayVal_nonneg r g' b)]
    exact Int.floor_mono (grayVal_mono le_rfl hgg le_rfl)
  · intro r g b b' hr0 hr1 hg0 hg1 hb0 hbb hb1
    refine ⟨pyTrunc (grayVal r g b), pyTrunc (grayVal r g b'),
      gray_ok hr0 hr1 hg0 hg1 hb0 (by omega),
      gray_ok hr0 hr1 hg0 hg1 (by omega) hb1, ?_⟩
    rw [pyTrunc_eq_floor (grayVal_nonneg r g b), pyTrunc_eq_floor (grayVal_nonneg r g b')]
    exact Int.floor_mono (grayVal_mono le_rfl le_rfl hbb)

theorem C10_witness : ∃ v v', rgb_to_grayscale 0 100 100 = .ok v ∧
    rgb_to_grayscale 255 100 100 = .ok v' ∧ v ≤ v' :=
  C10_gray_monotone.1 0 255 100 100 (by omega) (by omega) (by omega) (by omega) (by omega)
    (by omega) (by omega)

theorem scale_le_one_core {d m : ℤ} (hm : 0 < m) (hmd : m < d) (hd53 : d < 2 ^ 53) :
    pyDivIntInt m d = .ok (fpRoundN ((m : ℚ) / (d : ℚ))) ∧
    fpRoundN ((m : ℚ) / (d : ℚ)) ≤ 1 := by
  have hd : 0 < d := lt_trans hm hmd
  have hdq : (0 : ℚ) < (d : ℚ) := by exact_mod_cast hd
  have hmq : (0 : ℚ) < (m : ℚ) := by exact_mod_cast hm
  have hq0pos : 0 < (m : ℚ) / (d : ℚ) := div_pos hmq hdq
  have hq0le1 : (m : ℚ) / (d : ℚ) ≤ 1 := le_of_lt ((div_lt_one hdq).mpr (by exact_mod_cast hmd))
  constructor
  · unfold pyDivIntInt pyFloat
    rw [fpRound_eq_some (le_of_lt hq0pos) (lt_of_le_of_lt hq0le1 (by norm_num))]
  · calc fpRoundN ((m : ℚ) / (d : ℚ)) ≤ fpRoundN 1 := fpRoundN_mono hq0le1
      _ = 1 := fpRoundN_one

theorem mul_scale_le {x : ℤ} {s : ℚ} (hx : 0 < x) (hx53 : x < 2 ^ 53) (hs0 : 0 ≤ s)
    (hs1 : s ≤ 1) :
    pyMulIntFloat x s = .ok (fpRoundN ((x : ℚ) * s)) ∧
    pyTrunc (fpRoundN ((x : ℚ) * s)) ≤ x := by
  have hxq : (0 : ℚ) ≤ (x : ℚ) := by exact_mod_cast le_of_lt hx
  have hxs : (x : ℚ) * s ≤ (x : ℚ) := by
    calc (x : ℚ) * s ≤ (x : ℚ) * 1 := mul_le_mul_of_nonneg_left hs1 hxq
      _ = (x : ℚ) := mul_one _
  have hxb : (x : ℚ) < 2 ^ (1023 : ℤ) := by
    calc (x : ℚ) < ((2 ^ 53 : ℤ) : ℚ) := by exact_mod_cast hx53
      _ < 2 ^ (1023 : ℤ) := by norm_num
  constructor
  · exact pyMulIntFloat_ok (le_of_lt hx) hx53 hs0 (lt_of_le_of_lt hxs hxb)
  · exact pyTrunc_le_of_le (fpRoundN_nonneg _)
      (fpRoundN_le_anchor hxs (le_of_lt hx) hx53)

/-- Claim C5 (amended): in the exact-conversion regime `width, height < 2^53`,
for every positive `max_size`, when the scaling branch is taken the returned
larger dimension equals `max_size` or `max_size - 1`, and the returned smaller
dimension is at most `max_size`.  (As stated over all integers the claim is
false: see the counterexample, where the larger dimension comes out as
`max_size + 1`.) -/
theorem C5_amended_precision (w h m : ℤ) (hw : 0 < w) (hw53 : w < 2 ^ 53) (hh : 0 < h)
    (hh53 : h < 2 ^ 53) (hm : 0 < m) (hbr : ¬(w ≤ m ∧ h ≤ m)) :
    ∃ a b, resize_dimensions w h m = .ok (a, b) ∧
      (h < w → (a = m ∨ a = m - 1) ∧ b ≤ m) ∧
      (w ≤ h → (b = m ∨ b = m - 1) ∧ a ≤ m) := by
  rw [resize_scaling hw hh hm hbr]
  by_cases hcmp : h < w
  · rw [if_pos hcmp]
    have hmd : m < w := by omega
    obtain ⟨hdiv, hokd, hokc, htr, hcub⟩ := scale_core hh hm hmd hw53 (le_of_lt hcmp)
    simp only [hdiv, bind_ok, hokd, hokc]
    refine ⟨_, _, rfl, ?_, ?_⟩
    · intro _
      exact ⟨htr, hcub⟩
    · intro hcon
      omega
  · rw [if_neg hcmp]
    have hwh : w ≤ h := by omega
    have hmd : m < h := by omega
    obtain ⟨hdiv, hokd, hokc, htr, hcub⟩ := scale_core hw hm hmd hh53 hwh
    simp only [hdiv, bind_ok, hokc, hokd]
    refine ⟨_, _, rfl, ?_, ?_⟩
    · intro hcon
      omega
    · intro _
      exact ⟨htr, hcub⟩

theorem C5_witness : ∃ a b, resize_dimensions 2000 1000 1000 = .ok (a, b) ∧
    ((1000 : ℤ) < 2000 → (a = 1000 ∨ a = 1000 - 1) ∧ b ≤ 1000) ∧
    ((2000 : ℤ) ≤ 1000 → (b = 1000 ∨ b = 1000 - 1) ∧ a ≤ 1000) :=
  C5_amended_precision 2000 1000 1000 (by omega) (by omega) (by omega) (by omega)
    (by omega) (by omega)

/-- Claim C9 (amended): for `width, height < 2^53` (so their float conversions
are exact) `resize_dimensions` never upscales: each returned component is at
most the corresponding input.  (As stated over all integers the claim is
false: the float conversion of a large width can round upward, see the
counterexample.) -/
theorem C9_no_upscale (w h m : ℤ) (hw : 0 < w) (hw53 : w < 2 ^ 53) (hh : 0 < h)
    (hh53 : h < 2 ^ 53) (hm : 0 < m) :
    ∃ a b, resize_dimensions w h m = .ok (a, b) ∧ a ≤ w ∧ b ≤ h := by
  by_cases hbr : w ≤ m ∧ h ≤ m
  · refine ⟨w, h, ?_, le_refl w, le_refl h⟩
    unfold resize_dimensions
    rw [if_neg (by omega), if_pos hbr]
  · rw [resize_scaling hw hh hm hbr]
    by_cases hcmp : h < w
    · rw [if_pos hcmp]
      have hmd : m < w := by omega
      obtain ⟨hdiv, hs1⟩ := scale_le_one_core hm hmd hw53
      have hs0 : 0 ≤ fpRoundN ((m : ℚ) / (w : ℚ)) := fpRoundN_nonneg _
      obtain ⟨hokw, htrw⟩ := mul_scale_le hw hw53 hs0 hs1
      obtain ⟨hokh, htrh⟩ := mul_scale_le hh hh53 hs0 hs1
      simp only [hdiv, bind_ok, hokw, hokh]
      exact ⟨_, _, rfl, htrw, htrh⟩
    · rw [if_neg hcmp]
      have hmd : m < h := by omega
      obtain ⟨hdiv, hs1⟩ := scale_le_one_core hm hmd hh53
      have hs0 : 0 ≤ fpRoundN ((m : ℚ) / (h : ℚ)) := fpRoundN_nonneg _
      obtain ⟨hokw, htrw⟩ := mul_scale_le hw hw53 hs0 hs1
      obtain ⟨hokh, htrh⟩ := mul_scale_le hh hh53 hs0 hs1
      simp only [hdiv, bind_ok, hokw, hokh]
      exact ⟨_, _, rfl, htrw, htrh⟩

theorem C9_witness : ∃ a b, resize_dimensions 2000 1000 1000 = .ok (a, b) ∧
    a ≤ 2000 ∧ b ≤ 1000 :=
  C9_no_upscale 2000 1000 1000 (by omega) (by omega) (by omega) (by omega) (by omega)

theorem chain_nonneg {w h : ℤ} {X : Except PyErr ℚ} (hw : 0 ≤ w) (hh : 0 ≤ h)
    (hX : ∀ s, X = .ok s → 0 ≤ s) {a b : ℤ}
    (hr : (do
      let scale ← X
      let av ← pyMulIntFloat w scale
      let bv ← pyMulIntFloat h scale
      Except.ok (pyTrunc av, pyTrunc bv)) = Except.ok (a, b)) :
    0 ≤ a ∧ 0 ≤ b := by
  cases hs : X with
  | error e =>
    simp only [hs, bind_error] at hr
    exact Except.noConfusion hr
  | ok s =>
    simp only [hs, bind_ok] at hr
    have hs0 := hX s hs
    cases hA : pyMulIntFloat w s with
    | error e =>
      simp only [hA, bind_error] at hr
      exact Except.noConfusion hr
    | ok A =>
      simp only [hA, bind_ok] at hr
      cases hB : pyMulIntFloat h s with
      | error e =>
        simp only [hB, bind_error] at hr
        exact Except.noConfusion hr
      | ok B =>
        simp only [hB, bind_ok] at hr
        have hA0 : 0 ≤ A := pyMulIntFloat_ok_nonneg hA hw hs0
        have hB0 : 0 ≤ B := pyMulIntFloat_ok_nonneg hB hh hs0
        simp only [Except.ok.injEq, Prod.mk.injEq] at hr
        obtain ⟨ha, hb⟩ := hr
        rw [← ha, ← hb]
        exact ⟨pyTrunc_nonneg hA0, pyTrunc_nonneg hB0⟩

/-- Claim C8 (amended): for positive inputs, both components of any
successfully returned pair of `resize_dimensions` are nonnegative.  (The
original claim — both strictly positive — is false: the scaled smaller
dimension truncates to 0, see the counterexample `resize_dimensions 3 1 1 =
(1, 0)`.) -/
theorem C8_resize_nonneg (w h m : ℤ) (hw : 0 < w) (hh : 0 < h) (hm : 0 < m) (a b : ℤ)
    (hr : resize_dimensions w h m = .ok (a, b)) : 0 ≤ a ∧ 0 ≤ b := by
  by_cases hbr : w ≤ m ∧ h ≤ m
  · unfold resize_dimensions at hr
    rw [if_neg (by omega), if_pos hbr] at hr
    simp only [Except.ok.injEq, Prod.mk.injEq] at hr
    omega
  · rw [resize_scaling hw hh hm hbr] at hr
    by_cases hcmp : h < w
    · rw [if_pos hcmp] at hr
      refine chain_nonneg (le_of_lt hw) (le_of_lt hh) ?_ hr
      intro s hs
      exact pyFloat_ok_nonneg hs
        (div_nonneg (by exact_mod_cast le_of_lt hm) (by exact_mod_cast le_of_lt hw))
    · rw [if_neg hcmp] at hr
      refine chain_nonneg (le_of_lt hw) (le_of_lt hh) ?_ hr
      intro s hs
      exact pyFloat_ok_nonneg hs
        (div_nonneg (by exact_mod_cast le_of_lt hm) (by exact_mod_cast le_of_lt hh))

theorem resize_3_1_1 : resize_dimensions 3 1 1 = .ok (1, 0) := by
  have E1 : fpRound ((1 : ℚ)/3) = some (6004799503160661/18014398509481984) :=
    fpRound_eval (by norm_num)
      (by norm_num : (2 : ℚ) ^ (-2 : ℤ) ≤ 1/3)
      (by norm_num : (1/3 : ℚ) < 2 ^ ((-2 : ℤ) + 1))
      (by decide : (-54 : ℤ) = max ((-2) - 52) (-1074))
      (by norm_num : (1/3 : ℚ) / 2 ^ (-54 : ℤ) = 18014398509481984/3)
      (rhe_eq_of_lt_half (by norm_num) (by norm_num))
      (by norm_num : ((6004799503160661 : ℤ) : ℚ) * 2 ^ (-54 : ℤ) =
        6004799503160661/18014398509481984)
      (by norm_num)
  have E2 : fpRound ((3 : ℚ) * (6004799503160661/18014398509481984)) = some 1 := by
    rw [show (3 : ℚ) * (6004799503160661/18014398509481984) =
      18014398509481983/18014398509481984 by norm_num]
    exact fpRound_eval (by norm_num)
      (by norm_num : (2 : ℚ) ^ (-1 : ℤ) ≤ 18014398509481983/18014398509481984)
      (by norm_num : (18014398509481983/18014398509481984 : ℚ) < 2 ^ ((-1 : ℤ) + 1))
      (by decide : (-53 : ℤ) = max ((-1) - 52) (-1074))
      (by norm_num : (18014398509481983/18014398509481984 : ℚ) / 2 ^ (-53 : ℤ) =
        18014398509481983/2)
      (show rhe (18014398509481983/2) = 9007199254740992 by
        rw [show (18014398509481983/2 : ℚ) = ((9007199254740991 : ℤ) : ℚ) + 1/2 by norm_num,
          show (9007199254740992 : ℤ) = 9007199254740991 + 1 by norm_num]
        exact rhe_tie_odd (by decide))
      (by norm_num : ((9007199254740992 : ℤ) : ℚ) * 2 ^ (-53 : ℤ) = 1)
      (by norm_num)
  have E3 : fpRound ((1 : ℚ) * (6004799503160661/18014398509481984)) =
      some (6004799503160661/18014398509481984) := by
    rw [one_mul]
    exact fpRound_eval (by norm_num)
      (by norm_num : (2 : ℚ) ^ (-2 : ℤ) ≤ 6004799503160661/18014398509481984)
      (by norm_num : (6004799503160661/18014398509481984 : ℚ) < 2 ^ ((-2 : ℤ) + 1))
      (by decide : (-54 : ℤ) = max ((-2) - 52) (-1074))
      (by norm_num : (6004799503160661/18014398509481984 : ℚ) / 2 ^ (-54 : ℤ) =
        6004799503160661)
      (show rhe (6004799503160661 : ℚ) = 6004799503160661 by
        rw [show (6004799503160661 : ℚ) = ((6004799503160661 : ℤ) : ℚ) by norm_num]
        exact rhe_intCast _)
      (by norm_num : ((6004799503160661 : ℤ) : ℚ) * 2 ^ (-54 : ℤ) =
        6004799503160661/18014398509481984)
      (by norm_num)
  have hdiv : pyDivIntInt 1 3 = .ok (6004799503160661/18014398509481984) := by
    apply pyDivIntInt_eval
    rw [show ((1 : ℤ) : ℚ) / ((3 : ℤ) : ℚ) = 1/3 by norm_num]
    exact E1
  have hmul1 : pyMulIntFloat 3 (6004799503160661/18014398509481984) = .ok 1 := by
    apply pyMulIntFloat_eval
    · rw [show ((3 : ℤ) : ℚ) = (3 : ℚ) by norm_num]
      exact fpRound_eval (by norm_num)
        (by norm_num : (2 : ℚ) ^ (1 : ℤ) ≤ 3)
        (by norm_num : (3 : ℚ) < 2 ^ ((1 : ℤ) + 1))
        (by decide : (-51 : ℤ) = max (1 - 52) (-1074))
        (by norm_num : (3 : ℚ) / 2 ^ (-51 : ℤ) = 6755399441055744)
        (show rhe (6755399441055744 : ℚ) = 6755399441055744 by
          rw [show (6755399441055744 : ℚ) = ((6755399441055744 : ℤ) : ℚ) by norm_num]
          exact rhe_intCast _)
        (by norm_num : ((6755399441055744 : ℤ) : ℚ) * 2 ^ (-51 : ℤ) = 3)
        (by norm_num)
    · exact E2
  have hmul2 : pyMulIntFloat 1 (6004799503160661/18014398509481984) =
      .ok (6004799503160661/18014398509481984) := by
    apply pyMulIntFloat_eval
    · rw [show ((1 : ℤ) : ℚ) = (1 : ℚ) by norm_num]
      exact fp_one
    · exact E3
  have ht1 : pyTrunc (1 : ℚ) = 1 := by
    rw [pyTrunc_eq_floor (by norm_num)]
    exact Int.floor_one
  have ht2 : pyTrunc (6004799503160661/18014398509481984 : ℚ) = 0 := by
    rw [pyTrunc_eq_floor (by norm_num)]
    exact Int.floor_eq_iff.mpr ⟨by norm_num, by norm_num⟩
  rw [resize_scaling (by omega) (by omega) (by omega) (by omega),
    if_pos (show (1 : ℤ) < 3 by omega), hdiv, bind_ok]
  beta_reduce
  rw [hmul1, bind_ok]
  beta_reduce
  rw [hmul2, bind_ok]
  beta_reduce
  rw [ht1, ht2]

/-- Counterexample to claim C8 as stated: for the positive inputs
`width = 3, height = 1, max_size = 1` the function returns `(1, 0)` — the
second component of the returned pair is not strictly greater than zero
(the scaled height `1 * fl(1/3) ≈ 0.333` truncates to 0). -/
theorem C8_counterexample : resize_dimensions 3 1 1 = .ok (1, 0) ∧ ¬(0 < (0 : ℤ)) :=
  ⟨resize_3_1_1, by omega⟩

theorem resize_noop_10 : resize_dimensions 10 10 100 = .ok (10, 10) := by
  unfold resize_dimensions
  rw [if_neg (by omega), if_pos (by omega)]

theorem C8_witness : (0 : ℤ) ≤ 10 ∧ (0 : ℤ) ≤ 10 :=
  C8_resize_nonneg 10 10 100 (by omega) (by omega) (by omega) 10 10 resize_noop_10

theorem fp_half : fpRound (1/2 : ℚ) = some (1/2) :=
  fpRound_eval (by norm_num)
    (by norm_num : (2 : ℚ) ^ (-1 : ℤ) ≤ 1/2)
    (by norm_num : (1/2 : ℚ) < 2 ^ ((-1 : ℤ) + 1))
    (by decide : (-53 : ℤ) = max ((-1) - 52) (-1074))
    (by norm_num : (1/2 : ℚ) / 2 ^ (-53 : ℤ) = 4503599627370496)
    (show rhe (4503599627370496 : ℚ) = 4503599627370496 by
      rw [show (4503599627370496 : ℚ) = ((4503599627370496 : ℤ) : ℚ) by norm_num]
      exact rhe_intCast _)
    (by norm_num : ((4503599627370496 : ℤ) : ℚ) * 2 ^ (-53 : ℤ) = 1/2)
    (by norm_num)

theorem fp_conv_big : fpRound (18014398509481990 : ℚ) = some (18014398509481992 : ℚ) :=
  fpRound_eval (by norm_num)
    (by norm_num : (2 : ℚ) ^ (54 : ℤ) ≤ 18014398509481990)
    (by norm_num : (18014398509481990 : ℚ) < 2 ^ ((54 : ℤ) + 1))
    (by decide : (2 : ℤ) = max (54 - 52) (-1074))
    (by norm_num : (18014398509481990 : ℚ) / 2 ^ (2 : ℤ) = 9007199254740995/2)
    (show rhe (9007199254740995/2) = 4503599627370498 by
      rw [show (9007199254740995/2 : ℚ) = ((4503599627370497 : ℤ) : ℚ) + 1/2 by norm_num,
        show (4503599627370498 : ℤ) = 4503599627370497 + 1 by norm_num]
      exact rhe_tie_odd (by decide))
    (by norm_num : ((4503599627370498 : ℤ) : ℚ) * 2 ^ (2 : ℤ) = 18014398509481992)
    (by norm_num)

theorem trunc_one : pyTrunc (1 : ℚ) = 1 := by
  rw [pyTrunc_eq_floor (by norm_num)]
  exact Int.floor_one

/-- Counterexample to claim C5 as stated: for
`width = 18014398509481990` (= 2^54 + 6), `height = 1`,
`max_size = 9007199254740995` (= 2^53 + 3) the scaling branch is taken
(`width > max_size`), yet the returned larger dimension is
`9007199254740996 = max_size + 1`: the float conversion of `width` rounds up
to 2^54 + 8 (ties to even), `scale = fl(max_size/width) = 0.5` exactly, and
`fl((2^54+8) * 0.5) = 2^53 + 4`.  So the larger output is neither `max_size`
nor `max_size - 1`. -/
theorem C5_counterexample :
    resize_dimensions 18014398509481990 1 9007199254740995 =
      .ok (9007199254740996, 0) ∧
    (9007199254740995 : ℤ) < 18014398509481990 ∧
    ¬((9007199254740996 : ℤ) = 9007199254740995 ∨
      (9007199254740996 : ℤ) = 9007199254740995 - 1) := by
  refine ⟨?_, by omega, by omega⟩
  have G3 : fpRound ((18014398509481992 : ℚ) * (1/2)) = some (9007199254740996 : ℚ) := by
    rw [show (18014398509481992 : ℚ) * (1/2) = 9007199254740996 by norm_num]
    exact fpRound_eval (by norm_num)
      (by norm_num : (2 : ℚ) ^ (53 : ℤ) ≤ 9007199254740996)
      (by norm_num : (9007199254740996 : ℚ) < 2 ^ ((53 : ℤ) + 1))
      (by decide : (1 : ℤ) = max (53 - 52) (-1074))
      (by norm_num : (9007199254740996 : ℚ) / 2 ^ (1 : ℤ) = 4503599627370498)
      (show rhe (4503599627370498 : ℚ) = 4503599627370498 by
        rw [show (4503599627370498 : ℚ) = ((4503599627370498 : ℤ) : ℚ) by norm_num]
        exact rhe_intCast _)
      (by norm_num : ((4503599627370498 : ℤ) : ℚ) * 2 ^ (1 : ℤ) = 9007199254740996)
      (by norm_num)
  have hdiv : pyDivIntInt 9007199254740995 18014398509481990 = .ok (1/2) := by
    apply pyDivIntInt_eval
    rw [show ((9007199254740995 : ℤ) : ℚ) / ((18014398509481990 : ℤ) : ℚ) = 1/2 by
      norm_num]
    exact fp_half
  have hmul1 : pyMulIntFloat 18014398509481990 (1/2 : ℚ) = .ok (9007199254740996 : ℚ) := by
    apply pyMulIntFloat_eval
    · rw [show ((18014398509481990 : ℤ) : ℚ) = (18014398509481990 : ℚ) by norm_num]
      exact fp_conv_big
    · exact G3
  have hmul2 : pyMulIntFloat 1 (1/2 : ℚ) = .ok (1/2 : ℚ) := by
    apply pyMulIntFloat_eval
    · rw [show ((1 : ℤ) : ℚ) = (1 : ℚ) by norm_num]
      exact fp_one
    · rw [one_mul]
      exact fp_half
  have ht1 : pyTrunc (9007199254740996 : ℚ) = 9007199254740996 := by
    rw [pyTrunc_eq_floor (by norm_num)]
    exact Int.floor_eq_iff.mpr ⟨by norm_num, by norm_num⟩
  have ht2 : pyTrunc (1/2 : ℚ) = 0 := by
    rw [pyTrunc_eq_floor (by norm_num)]
    exact Int.floor_eq_iff.mpr ⟨by norm_num, by norm_num⟩
  rw [resize_scaling (by omega) (by omega) (by omega) (by omega),
    if_pos (show (1 : ℤ) < 18014398509481990 by omega), hdiv, bind_ok]
  beta_reduce
  rw [hmul1, bind_ok]
  beta_reduce
  rw [hmul2, bind_ok]
  beta_reduce
  rw [ht1, ht2]

/-- Counterexample to claim C9 (no upscaling) as stated: for
`width = 18014398509481990` (= 2^54 + 6), `height = 1`,
`max_size = 18014398509481989` (= width - 1) the scaling branch is taken, the
quotient `max_size/width` rounds up to exactly 1.0, the float conversion of
`width` rounds up to 2^54 + 8, and the function returns a width of
`18014398509481992 > width` — it upscales. -/
theorem C9_counterexample :
    resize_dimensions 18014398509481990 1 18014398509481989 =
      .ok (18014398509481992, 1) ∧
    ¬((18014398509481992 : ℤ) ≤ 18014398509481990) := by
  refine ⟨?_, by omega⟩
  have H1 : fpRound ((18014398509481989 : ℚ)/18014398509481990) = some 1 :=
    fpRound_eval (by norm_num)
      (by norm_num : (2 : ℚ) ^ (-1 : ℤ) ≤ 18014398509481989/18014398509481990)
      (by norm_num : (18014398509481989/18014398509481990 : ℚ) < 2 ^ ((-1 : ℤ) + 1))
      (by decide : (-53 : ℤ) = max ((-1) - 52) (-1074))
      (by norm_num : (18014398509481989/18014398509481990 : ℚ) / 2 ^ (-53 : ℤ) =
        81129638414606704213787141996544/9007199254740995)
      (show rhe (81129638414606704213787141996544/9007199254740995) = 9007199254740992 by
        rw [show (9007199254740992 : ℤ) = 9007199254740991 + 1 by norm_num]
        exact rhe_eq_of_half_lt (by norm_num) (by norm_num))
      (by norm_num : ((9007199254740992 : ℤ) : ℚ) * 2 ^ (-53 : ℤ) = 1)
      (by norm_num)
  have H3 : fpRound ((18014398509481992 : ℚ) * 1) = some (18014398509481992 : ℚ) := by
    rw [mul_one]
    exact fpRound_eval (by norm_num)
      (by norm_num : (2 : ℚ) ^ (54 : ℤ) ≤ 18014398509481992)
      (by norm_num : (18014398509481992 : ℚ) < 2 ^ ((54 : ℤ) + 1))
      (by decide : (2 : ℤ) = max (54 - 52) (-1074))
      (by norm_num : (18014398509481992 : ℚ) / 2 ^ (2 : ℤ) = 4503599627370498)
      (show rhe (4503599627370498 : ℚ) = 4503599627370498 by
        rw [show (4503599627370498 : ℚ) = ((4503599627370498 : ℤ) : ℚ) by norm_num]
        exact rhe_intCast _)
      (by norm_num : ((4503599627370498 : ℤ) : ℚ) * 2 ^ (2 : ℤ) = 18014398509481992)
      (by norm_num)
  have hdiv : pyDivIntInt 18014398509481989 18014398509481990 = .ok 1 := by
    apply pyDivIntInt_eval
    rw [show ((18014398509481989 : ℤ) : ℚ) / ((18014398509481990 : ℤ) : ℚ) =
      (18014398509481989 : ℚ)/18014398509481990 by norm_num]
    exact H1
  have hmul1 : pyMulIntFloat 18014398509481990 (1 : ℚ) =
      .ok (18014398509481992 : ℚ) := by
    apply pyMulIntFloat_eval
    · rw [show ((18014398509481990 : ℤ) : ℚ) = (18014398509481990 : ℚ) by norm_num]
      exact fp_conv_big
    · exact H3
  have hmul2 : pyMulIntFloat 1 (1 : ℚ) = .ok (1 : ℚ) := by
    apply pyMulIntFloat_eval
    · rw [show ((1 : ℤ) : ℚ) = (1 : ℚ) by norm_num]
      exact fp_one
    · rw [one_mul]
      exact fp_one
  have ht1 : pyTrunc (18014398509481992 : ℚ) = 18014398509481992 := by
    rw [pyTrunc_eq_floor (by norm_num)]
    exact Int.floor_eq_iff.mpr ⟨by norm_num, by norm_num⟩
  rw [resize_scaling (by omega) (by omega) (by omega) (by omega),
    if_pos (show (1 : ℤ) < 18014398509481990 by omega), hdiv, bind_ok]
  beta_reduce
  rw [hmul1, bind_ok]
  beta_reduce
  rw [hmul2, bind_ok]
  beta_reduce
  rw [ht1, trunc_one]
